import Mathlib

/-!
SparkFun SiT5811 OCXO driver: register codec, pull range and frequency conversion

A shallow embedding of `SfeSiT5811Driver` (`src/SparkFun_SiT5811.cpp`,
`src/sfTk/sfDevSiT5811.h`).

* Machine integers are `Nat` / `Int` with explicit reductions modulo `2^w`.
* `double` values are exact rationals (`ℚ`); `pow(2, n)` is `2 ^ n` and the literal
  `800e-6` is `800 / 1000000`. The definitions whose name ends in `D` repeat the Hz to
  control word conversion with every operation rounded to binary64.
* The I2C bus is a record of three transition functions over an arbitrary bus state.
* C bit-fields are allocated from the least significant bit of their storage unit, in
  declaration order (the layout of the little-endian GCC/Clang targets the library
  is built for).
-/

namespace SfeSiT5811Driver

/-! ## Bus collaborator -/

/-- Modelled from the spec: the toolkit success code `kSTkErrOk`, declared in the
SparkFun Toolkit and not in this repository; every other value is a bus error. -/
def kSTkErrOk : Int := 0

/-- Register address of the DCXO clip register. -/
def kSfeSiT5811RegClip : Nat := 0x00

/-- Register address of the frequency control most significant word. -/
def kSfeSiT5811RegControlMSW : Nat := 0x0C

/-- Outcome of `readRegisterRegion`: the error code, the buffer contents and the
number of bytes the bus reports as read. -/
structure ReadResult where
  err : Int
  theBytes : List Nat
  readBytes : Nat
deriving DecidableEq, Repr

/-- The bus the driver talks to (`_theBus`), as transitions of a bus state `β`. -/
structure Bus (β : Type) where
  ping : β → Int × β
  readRegisterRegion : Nat → Nat → β → ReadResult × β
  writeRegisterRegion : Nat → List Nat → β → Int × β

/-! ## Driver state -/

/-- The private members of `sfDevSiT5811`. -/
structure Driver where
  frequencyControl : Int
  clip : Nat
  baseFrequencyHz : ℚ
  maxFrequencyChangePPB : ℚ
deriving DecidableEq

/-- The constant member `_maxPullRange = 800e-6`. -/
def maxPullRange : ℚ := 800 / 1000000

/-! ## Integer conversions -/

/-- Conversion to `uint8_t`. -/
def toUInt8 (x : Nat) : Nat := x % 2 ^ 8

/-- Conversion to `uint16_t`. -/
def toUInt16 (x : Nat) : Nat := x % 2 ^ 16

/-- Conversion to `uint64_t`. -/
def toUInt64 (x : Nat) : Nat := x % 2 ^ 64

/-- The `unsigned64` view of the anonymous union after `signed64` was assigned. -/
def unsigned64 (signed64 : Int) : Nat := (signed64 % 2 ^ 64).toNat

/-- The `signed64` view of the anonymous union after `unsigned64` was assigned. -/
def signed64 (unsigned64 : Nat) : Int :=
  if unsigned64 < 2 ^ 63 then (unsigned64 : Int) else (unsigned64 : Int) - 2 ^ 64

/-- Bit-field `clip : 13` of `sfe_SiT5811_reg_clip_t`: declared first, so it sits in
bits 12..0 of `word`. -/
def clipField (word : Nat) : Nat := word &&& 0x1FFF

/-- Bit-field `freqControl : 7` of `sfe_SiT5811_reg_control_lsw_t`: declared after
`notUsed : 9`, so it sits in bits 15..9 of `word`. -/
def freqControlField (word : Nat) : Nat := (word >>> 9) &&& 0x7F

/-! ## Register codec -/

/-- The `theBytes` buffer filled by `setFrequencyControlWord` (source lines 128-135). -/
def controlBytes (freq : Int) : List Nat :=
  let u := unsigned64 freq
  [ toUInt8 ((u >>> 31) &&& 0xFF),
    toUInt8 ((u >>> 23) &&& 0xFF),
    toUInt8 ((u >>> 15) &&& 0xFF),
    toUInt8 ((u >>> 7) &&& 0xFF),
    toUInt8 (toUInt64 (u <<< 1) &&& 0xFF),
    0 ]

/-- The value `readRegisters` stores for a 6-byte buffer (source lines 82-104). -/
def controlWordOfBytes (theBytes : List Nat) : Int :=
  let register0C := toUInt16 ((theBytes.getD 0 0 <<< 8) ||| theBytes.getD 1 0)
  let register0D := toUInt16 ((theBytes.getD 2 0 <<< 8) ||| theBytes.getD 3 0)
  let register0E := toUInt16 ((theBytes.getD 4 0 <<< 8) ||| theBytes.getD 5 0)
  let raw := toUInt64 (register0C <<< 23) ||| toUInt64 (register0D <<< 7)
               ||| freqControlField register0E
  let raw := if raw &&& 0x0000004000000000 ≠ 0 then raw ||| 0xFFFFFFC000000000 else raw
  signed64 raw

/-- The value `readClipRegister` stores for a 2-byte buffer (source lines 55-61). -/
def clipOfBytes (theBytes : List Nat) : Nat :=
  let register00 := toUInt16 ((theBytes.getD 0 0 <<< 8) ||| theBytes.getD 1 0)
  clipField register00

/-! ## Driver operations -/

/-- Source function `SfeSiT5811Driver::readClipRegister`. -/
def readClipRegister {β : Type} (bus : Bus β) (d : Driver) (b : β) : Bool × Driver × β :=
  let r := bus.readRegisterRegion kSfeSiT5811RegClip 2 b
  if r.1.err ≠ kSTkErrOk then (false, d, r.2)
  else if r.1.readBytes ≠ 2 then (false, d, r.2)
  else (true, { d with clip := clipOfBytes r.1.theBytes }, r.2)

/-- Source function `SfeSiT5811Driver::readRegisters`. -/
def readRegisters {β : Type} (bus : Bus β) (d : Driver) (b : β) : Bool × Driver × β :=
  let r := bus.readRegisterRegion kSfeSiT5811RegControlMSW 6 b
  if r.1.err ≠ kSTkErrOk then (false, d, r.2)
  else if r.1.readBytes ≠ 6 then (false, d, r.2)
  else (true, { d with frequencyControl := controlWordOfBytes r.1.theBytes }, r.2)

/-- Source function `SfeSiT5811Driver::getFrequencyControlWord`. -/
def getFrequencyControlWord (d : Driver) : Int := d.frequencyControl

/-- Source function `SfeSiT5811Driver::setFrequencyControlWord`. -/
def setFrequencyControlWord {β : Type} (bus : Bus β) (freq : Int) (d : Driver) (b : β) :
    Bool × Driver × β :=
  let w := bus.writeRegisterRegion kSfeSiT5811RegControlMSW (controlBytes freq) b
  if w.1 ≠ kSTkErrOk then (false, d, w.2)
  else (true, { d with frequencyControl := freq }, w.2)

/-- Source function `SfeSiT5811Driver::getPullRangeClip`. -/
def getPullRangeClip (d : Driver) : Nat := d.clip

/-- Source function `SfeSiT5811Driver::getMaxPullAvailable`. -/
def getMaxPullAvailable (d : Driver) : ℚ :=
  if d.clip = 0 then maxPullRange
  else
    let clip : ℚ := (d.clip : ℚ)
    let clip := clip / 2 ^ 13
    let clip := clip * maxPullRange
    clip

/-- Source function `SfeSiT5811Driver::getBaseFrequencyHz`. -/
def getBaseFrequencyHz (d : Driver) : ℚ := d.baseFrequencyHz

/-- Source function `SfeSiT5811Driver::setBaseFrequencyHz`. -/
def setBaseFrequencyHz (freq : ℚ) (d : Driver) : Driver := { d with baseFrequencyHz := freq }

/-- Source function `SfeSiT5811Driver::getFrequencyHz`. -/
def getFrequencyHz (d : Driver) : ℚ :=
  let freqControl : ℚ := (d.frequencyControl : ℚ)
  let freqControl := if freqControl ≥ 0 then freqControl / (2 ^ 38 - 1) else freqControl / 2 ^ 38
  let freqOffsetHz := d.baseFrequencyHz * freqControl * maxPullRange
  let freqHz := d.baseFrequencyHz + freqOffsetHz
  freqHz

/-- The conversion `(int64_t)x` of a `double`: truncation toward zero. -/
def doubleToInt64 (x : ℚ) : Int := if 0 ≤ x then ⌊x⌋ else ⌈x⌉

/-- The local `freqControlInt` that `setFrequencyHz` hands to `setFrequencyControlWord`
(source lines 205-250). -/
def freqControlInt (d : Driver) (freq : ℚ) : Int :=
  let freqOffsetHz := freq - d.baseFrequencyHz
  let maxPullHz := d.baseFrequencyHz * maxPullRange
  let maxPullClippedHz := d.baseFrequencyHz * getMaxPullAvailable d
  let freqOffsetHz :=
    if freqOffsetHz ≥ 0 then
      (if freqOffsetHz > maxPullClippedHz then maxPullClippedHz else freqOffsetHz)
    else
      (if freqOffsetHz < 0 - maxPullClippedHz then 0 - maxPullClippedHz else freqOffsetHz)
  let freqControl := freqOffsetHz / maxPullHz
  let freqControl :=
    if freqControl ≥ 0 then
      (if freqControl > 1 then 1 else freqControl) * (2 ^ 38 - 1)
    else
      (if freqControl < -1 then -1 else freqControl) * 2 ^ 38
  let freqControlInt := doubleToInt64 freqControl
  let freqControlInt := if freqControlInt > 274877906943 then 274877906943 else freqControlInt
  let freqControlInt := if freqControlInt < -274877906944 then -274877906944 else freqControlInt
  freqControlInt

/-- Source function `SfeSiT5811Driver::setFrequencyHz`. -/
def setFrequencyHz {β : Type} (bus : Bus β) (freq : ℚ) (d : Driver) (b : β) :
    Bool × Driver × β :=
  setFrequencyControlWord bus (freqControlInt d freq) d b

/-! ## Stages of `setFrequencyHz` -/

/-- The local `freqOffsetHz` of `setFrequencyHz` after the limit to `maxPullClippedHz`
(source lines 206-224). -/
def limitedOffsetHz (d : Driver) (freq : ℚ) : ℚ :=
  let freqOffsetHz := freq - d.baseFrequencyHz
  let maxPullClippedHz := d.baseFrequencyHz * getMaxPullAvailable d
  if freqOffsetHz ≥ 0 then
    (if freqOffsetHz > maxPullClippedHz then maxPullClippedHz else freqOffsetHz)
  else
    (if freqOffsetHz < 0 - maxPullClippedHz then 0 - maxPullClippedHz else freqOffsetHz)

/-- The local `freqControl` of `setFrequencyHz` right after the division by `maxPullHz`
(source line 226). -/
def offsetFraction (d : Driver) (freq : ℚ) : ℚ :=
  limitedOffsetHz d freq / (d.baseFrequencyHz * maxPullRange)

/-- The local `freqControl` of `setFrequencyHz` after scaling (source lines 228-241). -/
def scaledFreqControl (d : Driver) (freq : ℚ) : ℚ :=
  let freqControl := offsetFraction d freq
  if freqControl ≥ 0 then
    (if freqControl > 1 then 1 else freqControl) * (2 ^ 38 - 1)
  else
    (if freqControl < -1 then -1 else freqControl) * 2 ^ 38

/-- The specification of the Hz to control word conversion: clamp the offset, normalise
by the absolute ceiling, clamp the fraction, scale, truncate toward zero, clamp. -/
def specHzToWord (base availablePull target : ℚ) : Int :=
  let offset := max (-(base * availablePull)) (min (target - base) (base * availablePull))
  let fraction := max (-1) (min (offset / (base * (800 / 1000000))) 1)
  let scaled := if fraction ≥ 0 then fraction * (2 ^ 38 - 1) else fraction * 2 ^ 38
  let truncated : Int := if scaled ≥ 0 then ⌊scaled⌋ else -⌊-scaled⌋
  max (-274877906944) (min truncated 274877906943)

/-! ## Spec-side vocabulary -/

/-- The 39-bit two's-complement form of a control word. -/
def twosComplement39 (v : Int) : Nat := (v % 2 ^ 39).toNat

/-- The bit slice `bits[hi:lo]` of `u`. -/
def bits (u hi lo : Nat) : Nat := u / 2 ^ lo % 2 ^ (hi + 1 - lo)

/-- The decoding of a 6-byte block as the specification words it: the three big-endian
words combined as `(MSW << 23) | (NSW << 7) | (LSW & 0x7F)`, then sign-extended from
bit 38 by OR-ing `0xFFFFFFC000000000`. -/
def specControlWordLow7 (b0 b1 b2 b3 b4 b5 : Nat) : Int :=
  let msw := b0 * 256 + b1
  let nsw := b2 * 256 + b3
  let lsw := b4 * 256 + b5
  let raw := (msw <<< 23) ||| (nsw <<< 7) ||| (lsw &&& 0x7F)
  signed64 (if raw.testBit 38 then raw ||| 0xFFFFFFC000000000 else raw)

/-- The decoding of a 6-byte block with the data bits of the LSW taken from its top
seven bits: `(MSW << 23) | (NSW << 7) | ((LSW >> 9) & 0x7F)`, then sign-extended from
bit 38 by OR-ing `0xFFFFFFC000000000`. -/
def specControlWordHigh7 (b0 b1 b2 b3 b4 b5 : Nat) : Int :=
  let msw := b0 * 256 + b1
  let nsw := b2 * 256 + b3
  let lsw := b4 * 256 + b5
  let raw := (msw <<< 23) ||| (nsw <<< 7) ||| ((lsw >>> 9) &&& 0x7F)
  signed64 (if raw.testBit 38 then raw ||| 0xFFFFFFC000000000 else raw)

/-! ## A loop-back bus used to exercise the driver -/

/-- A bus that remembers the last block written and returns it on every read. -/
def loopbackBus : Bus (List Nat) where
  ping := fun s => (kSTkErrOk, s)
  readRegisterRegion := fun _ _ s => ({ err := kSTkErrOk, theBytes := s, readBytes := s.length }, s)
  writeRegisterRegion := fun _ data _ => (kSTkErrOk, data)

/-- A driver state with the constructor defaults and zeroed mirrors. -/
def defaultDriver : Driver :=
  { frequencyControl := 0, clip := 0, baseFrequencyHz := 10000000, maxFrequencyChangePPB := 800000 }

/-! ## Initialisation and the bias-tracking controller -/

/-- Source function `SfeSiT5811Driver::begin`. -/
def begin {β : Type} (bus : Bus β) (d : Driver) (b : β) : Bool × Driver × β :=
  let p := bus.ping b
  if p.1 ≠ kSTkErrOk then (false, d, p.2)
  else
    let r1 := readClipRegister bus d p.2
    if r1.1 then
      let r2 := readClipRegister bus r1.2.1 r1.2.2
      if r2.1 then
        let r3 := readRegisters bus r2.2.1 r2.2.2
        if r3.1 then readRegisters bus r3.2.1 r3.2.2
        else (false, r3.2.1, r3.2.2)
      else (false, r2.2.1, r2.2.2)
    else (false, r1.2.1, r1.2.2)

/-- The function-local statics `I` and `initialized` of `setFrequencyByBiasMillis`. -/
structure Controller where
  I : ℚ
  initialized : Bool
deriving DecidableEq

/-- The statics before the first call: `I` zero-initialised, `initialized = false`. -/
def Controller.initial : Controller := { I := 0, initialized := false }

/-- Source function `SfeSiT5811Driver::setFrequencyByBiasMillis`, with the statics passed
in and returned. -/
def setFrequencyByBiasMillis {β : Type} (bus : Bus β) (bias Pk Ik : ℚ) (c : Controller)
    (d : Driver) (b : β) : Bool × Controller × Driver × β :=
  let freq := getFrequencyHz d
  let I := if !c.initialized then freq else c.I
  let initialized := if !c.initialized then true else c.initialized
  let clockInterval_s := 1 / freq
  let error := 0 - bias
  let errorInClocks := error / 1000
  let errorInClocks := errorInClocks / clockInterval_s
  let maxChangeInClocks := freq * d.maxFrequencyChangePPB * (1 / 1000000000)
  let errorInClocks :=
    if errorInClocks ≥ 0 then
      (if errorInClocks > maxChangeInClocks then maxChangeInClocks else errorInClocks)
    else
      (if errorInClocks < 0 - maxChangeInClocks then 0 - maxChangeInClocks else errorInClocks)
  let P := errorInClocks * Pk
  let dI := errorInClocks * Ik
  let I := I + dI
  let r := setFrequencyHz bus (P + I) d b
  (r.1, { I := I, initialized := initialized }, r.2.1, r.2.2)

/-- The local `errorInClocks` of `setFrequencyByBiasMillis` after the limit to
`maxChangeInClocks` (source lines 280-311). -/
def limitedErrorInClocks (d : Driver) (bias : ℚ) : ℚ :=
  let freq := getFrequencyHz d
  let clockInterval_s := 1 / freq
  let error := 0 - bias
  let errorInClocks := error / 1000
  let errorInClocks := errorInClocks / clockInterval_s
  let maxChangeInClocks := freq * d.maxFrequencyChangePPB * (1 / 1000000000)
  if errorInClocks ≥ 0 then
    (if errorInClocks > maxChangeInClocks then maxChangeInClocks else errorInClocks)
  else
    (if errorInClocks < 0 - maxChangeInClocks then 0 - maxChangeInClocks else errorInClocks)

/-- The statics `I` after the lazy seeding of `setFrequencyByBiasMillis` (source lines
280-288). -/
def seededIntegral (c : Controller) (d : Driver) : ℚ :=
  if c.initialized then c.I else getFrequencyHz d

/-- A read that the driver accepts: no bus error and exactly `n` bytes reported. -/
def readOk (n : Nat) (r : ReadResult) : Prop := r.err = kSTkErrOk ∧ r.readBytes = n

/-- Clamping `x` to the interval with end points `-m` and `+m`. -/
def specClampSym (x m : ℚ) : ℚ := max (-|m|) (min x |m|)

/-- A bus on which every operation fails. -/
def failingBus : Bus Unit where
  ping := fun s => (-1, s)
  readRegisterRegion := fun _ _ s => ({ err := -1, theBytes := [], readBytes := 0 }, s)
  writeRegisterRegion := fun _ _ s => (-1, s)

/-- A bus that answers reads from a script, one entry per read, and accepts every
write; an exhausted script is a bus error. -/
def scriptedBus : Bus (List ReadResult) where
  ping := fun s => (kSTkErrOk, s)
  readRegisterRegion := fun _ _ s =>
    match s with
    | [] => ({ err := -1, theBytes := [], readBytes := 0 }, [])
    | r :: rest => (r, rest)
  writeRegisterRegion := fun _ _ s => (kSTkErrOk, s)

/-! ## The Hz to control word conversion in binary64

The same source lines as `getMaxPullAvailable` and `freqControlInt`, with every
arithmetic operation rounded to binary64 (round to nearest, ties to even). Values are
the rationals that the finite `double`s denote; overflow to infinity and NaN are outside
this model. -/

/-- Nearest integer, ties to the even one. -/
def roundHalfEven (x : ℚ) : Int :=
  if x - ⌊x⌋ < 1 / 2 then ⌊x⌋
  else if 1 / 2 < x - ⌊x⌋ then ⌊x⌋ + 1
  else if ⌊x⌋ % 2 = 0 then ⌊x⌋ else ⌊x⌋ + 1

/-- The spacing of the binary64 values around `x`: `2^(e - 52)` with
`2^e ≤ |x| < 2^(e + 1)`, and the subnormal spacing below `2^(-1022)`. -/
def binary64Ulp (x : ℚ) : ℚ := (2 : ℚ) ^ (max (Int.log 2 |x|) (-1022) - 52)

/-- The binary64 value nearest to `x` (ties to even). -/
def toDouble (x : ℚ) : ℚ := (roundHalfEven (x / binary64Ulp x) : ℚ) * binary64Ulp x

/-- The constant member `_maxPullRange = 800e-6` as the `double` the literal denotes. -/
def maxPullRangeD : ℚ := toDouble (800 / 1000000)

/-- Source function `SfeSiT5811Driver::getMaxPullAvailable`, in binary64. -/
def getMaxPullAvailableD (d : Driver) : ℚ :=
  if d.clip = 0 then maxPullRangeD
  else
    let clip : ℚ := toDouble (d.clip : ℚ)
    let clip := toDouble (clip / toDouble (2 ^ 13))
    let clip := toDouble (clip * maxPullRangeD)
    clip

/-- The local `freqControlInt` of `setFrequencyHz` (source lines 205-250), in binary64. -/
def freqControlIntD (d : Driver) (freq : ℚ) : Int :=
  let freqOffsetHz := toDouble (freq - d.baseFrequencyHz)
  let maxPullHz := toDouble (d.baseFrequencyHz * maxPullRangeD)
  let maxPullClippedHz := toDouble (d.baseFrequencyHz * getMaxPullAvailableD d)
  let freqOffsetHz :=
    if freqOffsetHz ≥ 0 then
      (if freqOffsetHz > maxPullClippedHz then maxPullClippedHz else freqOffsetHz)
    else
      (if freqOffsetHz < toDouble (0 - maxPullClippedHz) then toDouble (0 - maxPullClippedHz)
       else freqOffsetHz)
  let freqControl := toDouble (freqOffsetHz / maxPullHz)
  let freqControl :=
    if freqControl ≥ 0 then
      toDouble ((if freqControl > 1 then 1 else freqControl) * toDouble (2 ^ 38 - 1))
    else
      toDouble ((if freqControl < -1 then -1 else freqControl) * toDouble (2 ^ 38))
  let freqControlInt := doubleToInt64 freqControl
  let freqControlInt := if freqControlInt > 274877906943 then 274877906943 else freqControlInt
  let freqControlInt := if freqControlInt < -274877906944 then -274877906944 else freqControlInt
  freqControlInt

/-- Source function `SfeSiT5811Driver::setFrequencyHz`, in binary64. -/
def setFrequencyHzD {β : Type} (bus : Bus β) (freq : ℚ) (d : Driver) (b : β) :
    Bool × Driver × β :=
  setFrequencyControlWord bus (freqControlIntD d freq) d b

/-! ## Arithmetic of the codec -/

theorem toUInt8_mask (x : Nat) : toUInt8 (x &&& 0xFF) = x % 256 := by
  have h := Nat.and_pow_two_sub_one_eq_mod x 8
  norm_num at h
  rw [toUInt8, h]
  omega

theorem shl_or_eq (a b i : Nat) (hb : b < 2 ^ i) : (a <<< i) ||| b = a * 2 ^ i + b := by
  rw [Nat.shiftLeft_eq, Nat.mul_comm a, Nat.mul_add_lt_is_or hb]

theorem and_two_pow_eq (x n : Nat) : x &&& 2 ^ n = if x.testBit n then 2 ^ n else 0 := by
  apply Nat.eq_of_testBit_eq
  intro i
  rw [Nat.testBit_and, Nat.testBit_two_pow]
  by_cases h : n = i
  · subst h
    cases hx : x.testBit n <;> simp [Nat.testBit_two_pow]
  · cases hx : x.testBit n <;> simp [Nat.testBit_two_pow, h]

theorem and_bit38_ne_zero (x : Nat) : x &&& 0x0000004000000000 ≠ 0 ↔ x / 2 ^ 38 % 2 = 1 := by
  have h := and_two_pow_eq x 38
  rw [Nat.testBit_to_div_mod] at h
  norm_num at h
  by_cases hx : x / 274877906944 % 2 = 1
  · simp [hx] at h
    norm_num
    omega
  · simp [hx] at h
    norm_num
    omega

theorem or_signExt_eq (x : Nat) (h1 : 2 ^ 38 ≤ x) (h2 : x < 2 ^ 39) :
    x ||| 0xFFFFFFC000000000 = x + (2 ^ 64 - 2 ^ 39) := by
  obtain ⟨y, rfl⟩ : ∃ y, x = 2 ^ 38 * 1 + y := ⟨x - 2 ^ 38, by omega⟩
  have hy : y < 2 ^ 38 := by omega
  have hM : (0xFFFFFFC000000000 : Nat) ||| 2 ^ 38 * 1 = 2 ^ 38 * (2 ^ 26 - 1) := by decide
  rw [Nat.or_comm, Nat.mul_add_lt_is_or hy, ← Nat.or_assoc, hM,
    ← Nat.mul_add_lt_is_or hy (2 ^ 26 - 1), ← Nat.mul_add_lt_is_or hy 1]
  omega

theorem freqControlField_eq (word : Nat) : freqControlField word = word / 512 % 128 := by
  have h := Nat.and_pow_two_sub_one_eq_mod (word >>> 9) 7
  rw [Nat.shiftRight_eq_div_pow] at h
  norm_num at h
  rw [freqControlField, Nat.shiftRight_eq_div_pow]
  exact h

theorem clipField_eq (word : Nat) : clipField word = word % 8192 := by
  have h := Nat.and_pow_two_sub_one_eq_mod word 13
  norm_num at h
  rw [clipField]
  exact h

/-- The 16-bit big-endian word assembled from two bytes. -/
theorem word16_eq (hi lo : Nat) (hhi : hi < 256) (hlo : lo < 256) :
    toUInt16 ((hi <<< 8) ||| lo) = hi * 256 + lo := by
  rw [shl_or_eq hi lo 8 (by omega), toUInt16]
  omega

/-- The buffer written by `setFrequencyControlWord`, in division/remainder form. -/
theorem controlBytes_eq (freq : Int) :
    controlBytes freq =
      [ unsigned64 freq / 2 ^ 31 % 256, unsigned64 freq / 2 ^ 23 % 256,
        unsigned64 freq / 2 ^ 15 % 256, unsigned64 freq / 2 ^ 7 % 256,
        unsigned64 freq % 128 * 2, 0 ] := by
  simp only [controlBytes, toUInt8_mask, Nat.shiftRight_eq_div_pow, Nat.shiftLeft_eq, toUInt64]
  have h : unsigned64 freq * 2 ^ 1 % 2 ^ 64 % 256 = unsigned64 freq % 128 * 2 := by omega
  rw [h]

/-- The value stored by `readRegisters`, in arithmetic form: the 39 data bits are
`b0 b1 b2 b3` followed by the upper seven bits of `b4`, read as two's complement. -/
theorem controlWordOfBytes_eq (b0 b1 b2 b3 b4 b5 : Nat)
    (h0 : b0 < 256) (h1 : b1 < 256) (h2 : b2 < 256) (h3 : b3 < 256) (h4 : b4 < 256)
    (h5 : b5 < 256) :
    controlWordOfBytes [b0, b1, b2, b3, b4, b5] =
      if b0 < 128 then
        ((b0 * 2 ^ 31 + b1 * 2 ^ 23 + b2 * 2 ^ 15 + b3 * 2 ^ 7 + b4 / 2 : Nat) : Int)
      else
        ((b0 * 2 ^ 31 + b1 * 2 ^ 23 + b2 * 2 ^ 15 + b3 * 2 ^ 7 + b4 / 2 : Nat) : Int) - 2 ^ 39 := by
  simp only [controlWordOfBytes, List.getD_cons_zero, List.getD_cons_succ,
    word16_eq _ _ h0 h1, word16_eq _ _ h2 h3, word16_eq _ _ h4 h5, freqControlField_eq]
  simp only [Nat.shiftLeft_eq, toUInt64]
  have hA : (b0 * 256 + b1) * 2 ^ 23 % 2 ^ 64 = 2 ^ 23 * (b0 * 256 + b1) := by omega
  have hB : (b2 * 256 + b3) * 2 ^ 7 % 2 ^ 64 = (b2 * 256 + b3) * 2 ^ 7 := by omega
  have hf : (b4 * 256 + b5) / 512 % 128 = b4 / 2 := by omega
  rw [hA, hB, hf]
  rw [← Nat.mul_add_lt_is_or (by omega : (b2 * 256 + b3) * 2 ^ 7 < 2 ^ 23)]
  have hC : 2 ^ 23 * (b0 * 256 + b1) + (b2 * 256 + b3) * 2 ^ 7
      = 2 ^ 7 * ((b0 * 256 + b1) * 2 ^ 16 + (b2 * 256 + b3)) := by omega
  rw [hC, ← Nat.mul_add_lt_is_or (by omega : b4 / 2 < 2 ^ 7)]
  simp only [and_bit38_ne_zero]
  split
  · rename_i hs
    rw [or_signExt_eq _ (by omega) (by omega), signed64]
    have hb : ¬ b0 < 128 := by omega
    rw [if_neg (by omega), if_neg hb]
    push_cast
    omega
  · rename_i hs
    rw [signed64]
    have hb : b0 < 128 := by omega
    rw [if_pos (by omega), if_pos hb]
    push_cast
    omega

/-- The `unsigned64` view of a 39-bit control word. -/
theorem unsigned64_eq (v : Int) (hlo : -2 ^ 38 ≤ v) (hhi : v ≤ 2 ^ 38 - 1) :
    (unsigned64 v : Int) = if 0 ≤ v then v else v + 2 ^ 64 := by
  unfold unsigned64
  split <;> omega

/-- Decoding the buffer that `setFrequencyControlWord` fills gives the word back. -/
theorem controlWordOfBytes_controlBytes (v : Int) (hlo : -2 ^ 38 ≤ v) (hhi : v ≤ 2 ^ 38 - 1) :
    controlWordOfBytes (controlBytes v) = v := by
  have hu := unsigned64_eq v hlo hhi
  rw [controlBytes_eq, controlWordOfBytes_eq _ _ _ _ _ _ (by omega) (by omega) (by omega)
    (by omega) (by omega) (by omega)]
  generalize unsigned64 v = u at hu ⊢
  split at hu <;> split <;> omega

/-! ## Arithmetic of the pull range and the frequency conversion -/

theorem maxPullRange_pos : 0 < maxPullRange := by norm_num [maxPullRange]

theorem getMaxPullAvailable_pos (d : Driver) : 0 < getMaxPullAvailable d := by
  unfold getMaxPullAvailable
  split
  · exact maxPullRange_pos
  · rename_i h
    have hc : (0 : ℚ) < (d.clip : ℚ) := by exact_mod_cast Nat.pos_of_ne_zero h
    have := maxPullRange_pos
    positivity

theorem getMaxPullAvailable_le (d : Driver) (hc : d.clip ≤ 8191) :
    getMaxPullAvailable d ≤ maxPullRange := by
  unfold getMaxPullAvailable
  split
  · exact le_rfl
  · have hq : (d.clip : ℚ) ≤ 8191 := by exact_mod_cast hc
    have hR := maxPullRange_pos
    simp only
    have h1 : (d.clip : ℚ) / 2 ^ 13 ≤ 1 := by
      rw [div_le_one (by norm_num)]
      linarith
    calc (d.clip : ℚ) / 2 ^ 13 * maxPullRange ≤ 1 * maxPullRange :=
          mul_le_mul_of_nonneg_right h1 hR.le
      _ = maxPullRange := one_mul _

theorem freqControlInt_eq (d : Driver) (freq : ℚ) :
    freqControlInt d freq =
      (let w := doubleToInt64 (scaledFreqControl d freq)
       let w := if w > 274877906943 then 274877906943 else w
       if w < -274877906944 then -274877906944 else w) := rfl

/-- The limited offset stays within the clipped pull. -/
theorem limitedOffsetHz_bounds (d : Driver) (freq : ℚ) (hb : 0 < d.baseFrequencyHz) :
    -(d.baseFrequencyHz * getMaxPullAvailable d) ≤ limitedOffsetHz d freq ∧
      limitedOffsetHz d freq ≤ d.baseFrequencyHz * getMaxPullAvailable d := by
  have hA := getMaxPullAvailable_pos d
  have hBA : 0 < d.baseFrequencyHz * getMaxPullAvailable d := mul_pos hb hA
  unfold limitedOffsetHz
  simp only
  split_ifs <;> constructor <;> linarith

/-- The fraction handed to the scaling step already lies in `[-1, 1]`. -/
theorem offsetFraction_bounds (d : Driver) (freq : ℚ) (hb : 0 < d.baseFrequencyHz)
    (hc : d.clip ≤ 8191) : -1 ≤ offsetFraction d freq ∧ offsetFraction d freq ≤ 1 := by
  have hA := getMaxPullAvailable_le d hc
  have hR := maxPullRange_pos
  have hBR : 0 < d.baseFrequencyHz * maxPullRange := mul_pos hb hR
  obtain ⟨h1, h2⟩ := limitedOffsetHz_bounds d freq hb
  have hBA : d.baseFrequencyHz * getMaxPullAvailable d ≤ d.baseFrequencyHz * maxPullRange :=
    mul_le_mul_of_nonneg_left hA hb.le
  unfold offsetFraction
  constructor
  · rw [le_div_iff₀ hBR]
    linarith
  · rw [div_le_one hBR]
    linarith

/-- Neither clamp of the scaling step is active. -/
theorem scaledFreqControl_eq (d : Driver) (freq : ℚ) (hb : 0 < d.baseFrequencyHz)
    (hc : d.clip ≤ 8191) :
    scaledFreqControl d freq =
      if offsetFraction d freq ≥ 0 then offsetFraction d freq * (2 ^ 38 - 1)
      else offsetFraction d freq * 2 ^ 38 := by
  obtain ⟨h1, h2⟩ := offsetFraction_bounds d freq hb hc
  unfold scaledFreqControl
  simp only
  rw [if_neg (not_lt.mpr h2), if_neg (not_lt.mpr h1)]

/-- Truncation toward zero never moves a value away from zero. -/
theorem doubleToInt64_bounds (x : ℚ) :
    (0 ≤ x → 0 ≤ doubleToInt64 x ∧ (doubleToInt64 x : ℚ) ≤ x) ∧
      (x < 0 → doubleToInt64 x ≤ 0 ∧ x ≤ (doubleToInt64 x : ℚ)) := by
  unfold doubleToInt64
  constructor
  · intro hx
    rw [if_pos hx]
    exact ⟨Int.floor_nonneg.mpr hx, Int.floor_le x⟩
  · intro hx
    rw [if_neg (not_le.mpr hx)]
    refine ⟨?_, Int.le_ceil x⟩
    have h : ⌈x⌉ ≤ (0 : Int) := Int.ceil_le.mpr (by exact_mod_cast hx.le)
    exact h

/-- The word computed by `setFrequencyHz`, with its sign and its distance to zero. -/
theorem freqControlInt_spec (d : Driver) (freq : ℚ) (hb : 0 < d.baseFrequencyHz)
    (hc : d.clip ≤ 8191) :
    freqControlInt d freq = doubleToInt64 (scaledFreqControl d freq) ∧
      -274877906944 ≤ freqControlInt d freq ∧ freqControlInt d freq ≤ 274877906943 ∧
      (0 ≤ offsetFraction d freq →
        0 ≤ freqControlInt d freq ∧
          (freqControlInt d freq : ℚ) ≤ offsetFraction d freq * (2 ^ 38 - 1)) ∧
      (offsetFraction d freq < 0 →
        freqControlInt d freq ≤ 0 ∧
          offsetFraction d freq * 2 ^ 38 ≤ (freqControlInt d freq : ℚ)) := by
  obtain ⟨h1, h2⟩ := offsetFraction_bounds d freq hb hc
  have hs := scaledFreqControl_eq d freq hb hc
  obtain ⟨hp, hn⟩ := doubleToInt64_bounds (scaledFreqControl d freq)
  rw [freqControlInt_eq]
  simp only
  by_cases hf : 0 ≤ offsetFraction d freq
  · rw [if_pos hf] at hs
    have hx : 0 ≤ scaledFreqControl d freq := by
      rw [hs]
      exact mul_nonneg hf (by norm_num)
    obtain ⟨hw0, hwx⟩ := hp hx
    have hupper : (doubleToInt64 (scaledFreqControl d freq) : ℚ) ≤ 274877906943 := by
      calc (doubleToInt64 (scaledFreqControl d freq) : ℚ) ≤ scaledFreqControl d freq := hwx
        _ = offsetFraction d freq * (2 ^ 38 - 1) := hs
        _ ≤ 1 * (2 ^ 38 - 1) := mul_le_mul_of_nonneg_right h2 (by norm_num)
        _ = 274877906943 := by norm_num
    have hupperZ : doubleToInt64 (scaledFreqControl d freq) ≤ 274877906943 := by
      exact_mod_cast hupper
    rw [if_neg (by omega), if_neg (by omega)]
    refine ⟨rfl, by omega, hupperZ, fun _ => ⟨hw0, hs ▸ hwx⟩, fun h => absurd hf (not_le.mpr h)⟩
  · have hf0 : offsetFraction d freq < 0 := not_le.mp hf
    rw [if_neg hf] at hs
    have hx : scaledFreqControl d freq < 0 := by
      rw [hs]
      exact mul_neg_of_neg_of_pos hf0 (by norm_num)
    obtain ⟨hw0, hwx⟩ := hn hx
    have hlower : (-274877906944 : ℚ) ≤ (doubleToInt64 (scaledFreqControl d freq) : ℚ) := by
      calc (-274877906944 : ℚ) = -1 * 2 ^ 38 := by norm_num
        _ ≤ offsetFraction d freq * 2 ^ 38 := mul_le_mul_of_nonneg_right h1 (by norm_num)
        _ = scaledFreqControl d freq := hs.symm
        _ ≤ (doubleToInt64 (scaledFreqControl d freq) : ℚ) := hwx
    have hlowerZ : -274877906944 ≤ doubleToInt64 (scaledFreqControl d freq) := by
      exact_mod_cast hlower
    rw [if_neg (by omega), if_neg (by omega)]
    refine ⟨rfl, hlowerZ, by omega, fun h => absurd h hf, fun _ => ⟨hw0, hs ▸ hwx⟩⟩

/-- The frequency read back for the word computed by `setFrequencyHz` stays within the
clipped pull around the base frequency. -/
theorem getFrequencyHz_freqControlInt_bounds (d : Driver) (freq : ℚ)
    (hb : 0 < d.baseFrequencyHz) (hc : d.clip ≤ 8191) :
    d.baseFrequencyHz - d.baseFrequencyHz * getMaxPullAvailable d ≤
        getFrequencyHz { d with frequencyControl := freqControlInt d freq } ∧
      getFrequencyHz { d with frequencyControl := freqControlInt d freq } ≤
        d.baseFrequencyHz + d.baseFrequencyHz * getMaxPullAvailable d := by
  obtain ⟨_, _, _, hpos, hneg⟩ := freqControlInt_spec d freq hb hc
  obtain ⟨ho1, ho2⟩ := limitedOffsetHz_bounds d freq hb
  have hA := getMaxPullAvailable_pos d
  have hR := maxPullRange_pos
  have hBR : 0 < d.baseFrequencyHz * maxPullRange := mul_pos hb hR
  have hBA : 0 < d.baseFrequencyHz * getMaxPullAvailable d := mul_pos hb hA
  have hfrac : offsetFraction d freq * (d.baseFrequencyHz * maxPullRange)
      = limitedOffsetHz d freq := by
    unfold offsetFraction
    field_simp
  generalize freqControlInt d freq = w at hpos hneg ⊢
  unfold getFrequencyHz
  simp only
  by_cases hf : 0 ≤ offsetFraction d freq
  · obtain ⟨hw0, hw⟩ := hpos hf
    have hwq : (w : ℚ) ≥ 0 := by exact_mod_cast hw0
    rw [if_pos hwq]
    have hq : (w : ℚ) / (2 ^ 38 - 1) ≤ offsetFraction d freq := by
      rw [div_le_iff₀ (by norm_num)]
      exact hw
    have hq0 : 0 ≤ (w : ℚ) / (2 ^ 38 - 1) := div_nonneg hwq (by norm_num)
    have e : d.baseFrequencyHz * ((w : ℚ) / (2 ^ 38 - 1)) * maxPullRange
        = (w : ℚ) / (2 ^ 38 - 1) * (d.baseFrequencyHz * maxPullRange) := by ring
    rw [e]
    have hm := mul_le_mul_of_nonneg_right hq hBR.le
    have hm0 := mul_nonneg hq0 hBR.le
    constructor <;> linarith
  · have hf0 : offsetFraction d freq < 0 := not_le.mp hf
    obtain ⟨hw0, hw⟩ := hneg hf0
    by_cases hwz : (w : ℚ) ≥ 0
    · have hz : w = 0 := by
        have : (0 : Int) ≤ w := by exact_mod_cast hwz
        omega
      subst hz
      rw [if_pos hwz]
      norm_num
      exact hBA.le
    · rw [if_neg hwz]
      have hwneg : (w : ℚ) ≤ 0 := by exact_mod_cast hw0
      have hq : offsetFraction d freq ≤ (w : ℚ) / 2 ^ 38 := by
        rw [le_div_iff₀ (by norm_num)]
        exact hw
      have hq0 : (w : ℚ) / 2 ^ 38 ≤ 0 := div_nonpos_of_nonpos_of_nonneg hwneg (by norm_num)
      have e : d.baseFrequencyHz * ((w : ℚ) / 2 ^ 38) * maxPullRange
          = (w : ℚ) / 2 ^ 38 * (d.baseFrequencyHz * maxPullRange) := by ring
      rw [e]
      have hm := mul_le_mul_of_nonneg_right hq hBR.le
      have hm0 := mul_nonpos_of_nonpos_of_nonneg hq0 hBR.le
      constructor <;> linarith

/-- The nested limit of `setFrequencyHz` is a symmetric clamp. -/
theorem limitedOffsetHz_eq_clamp (d : Driver) (freq : ℚ) (hb : 0 < d.baseFrequencyHz) :
    limitedOffsetHz d freq =
      max (-(d.baseFrequencyHz * getMaxPullAvailable d))
        (min (freq - d.baseFrequencyHz) (d.baseFrequencyHz * getMaxPullAvailable d)) := by
  have hBA : 0 < d.baseFrequencyHz * getMaxPullAvailable d :=
    mul_pos hb (getMaxPullAvailable_pos d)
  unfold limitedOffsetHz
  simp only
  split_ifs with h1 h2 h3
  · rw [min_eq_right (le_of_lt h2), max_eq_right (by linarith)]
  · rw [min_eq_left (not_lt.mp h2), max_eq_right (by linarith)]
  · rw [min_eq_left (by linarith), max_eq_left (by linarith)]
    ring
  · rw [min_eq_left (by linarith), max_eq_right (by linarith)]

theorem doubleToInt64_eq_sign_floor (x : ℚ) :
    doubleToInt64 x = if x ≥ 0 then ⌊x⌋ else -⌊-x⌋ := by
  unfold doubleToInt64
  split_ifs with h
  · rfl
  · rw [Int.floor_neg, neg_neg]

/-- The word computed by `setFrequencyHz` is the one the specification describes. -/
theorem freqControlInt_eq_spec (d : Driver) (freq : ℚ) (hb : 0 < d.baseFrequencyHz)
    (hc : d.clip ≤ 8191) :
    freqControlInt d freq = specHzToWord d.baseFrequencyHz (getMaxPullAvailable d) freq := by
  obtain ⟨h1, h2⟩ := offsetFraction_bounds d freq hb hc
  obtain ⟨hw, hlo, hhi, _, _⟩ := freqControlInt_spec d freq hb hc
  have hoff := limitedOffsetHz_eq_clamp d freq hb
  have hfr : max (-1) (min (limitedOffsetHz d freq / (d.baseFrequencyHz * (800 / 1000000))) 1)
      = offsetFraction d freq := by
    have e : limitedOffsetHz d freq / (d.baseFrequencyHz * (800 / 1000000))
        = offsetFraction d freq := rfl
    rw [e, min_eq_left h2, max_eq_right h1]
  unfold specHzToWord
  simp only
  rw [← hoff, hfr, ← scaledFreqControl_eq d freq hb hc, ← doubleToInt64_eq_sign_floor, ← hw,
    min_eq_left hhi, max_eq_right hlo]

theorem doubleToInt64_intCast (n : Int) : doubleToInt64 (n : ℚ) = n := by
  unfold doubleToInt64
  split_ifs <;> simp

/-- A target equal to the base frequency gives the word 0. -/
theorem freqControlInt_base (d : Driver) (hb : 0 < d.baseFrequencyHz) :
    freqControlInt d d.baseFrequencyHz = 0 := by
  have hBA : 0 < d.baseFrequencyHz * getMaxPullAvailable d :=
    mul_pos hb (getMaxPullAvailable_pos d)
  have h0 : limitedOffsetHz d d.baseFrequencyHz = 0 := by
    unfold limitedOffsetHz
    simp only [sub_self, ge_iff_le, le_refl, if_true]
    rw [if_neg (not_lt.mpr hBA.le)]
  have h1 : scaledFreqControl d d.baseFrequencyHz = ((0 : Int) : ℚ) := by
    unfold scaledFreqControl offsetFraction
    rw [h0]
    norm_num
  rw [freqControlInt_eq, h1, doubleToInt64_intCast]
  decide

/-- With the full pull range, the top of the range gives the largest word. -/
theorem freqControlInt_top (d : Driver) (hb : 0 < d.baseFrequencyHz) (hc : d.clip = 0) :
    freqControlInt d (d.baseFrequencyHz * (1 + 800 / 1000000)) = 2 ^ 38 - 1 := by
  have hA : getMaxPullAvailable d = 800 / 1000000 := by
    unfold getMaxPullAvailable
    rw [if_pos hc, maxPullRange]
  have hne : d.baseFrequencyHz ≠ 0 := ne_of_gt hb
  have h0 : limitedOffsetHz d (d.baseFrequencyHz * (1 + 800 / 1000000))
      = d.baseFrequencyHz * (800 / 1000000) := by
    unfold limitedOffsetHz
    simp only [hA]
    have e : d.baseFrequencyHz * (1 + 800 / 1000000) - d.baseFrequencyHz
        = d.baseFrequencyHz * (800 / 1000000) := by ring
    rw [e, if_pos (by positivity), if_neg (lt_irrefl _)]
  have h1 : scaledFreqControl d (d.baseFrequencyHz * (1 + 800 / 1000000))
      = ((2 ^ 38 - 1 : Int) : ℚ) := by
    unfold scaledFreqControl offsetFraction
    rw [h0, maxPullRange, div_self (by positivity)]
    norm_num
  rw [freqControlInt_eq, h1, doubleToInt64_intCast]
  decide

/-- With the full pull range, the bottom of the range gives the smallest word. -/
theorem freqControlInt_bottom (d : Driver) (hb : 0 < d.baseFrequencyHz) (hc : d.clip = 0) :
    freqControlInt d (d.baseFrequencyHz * (1 - 800 / 1000000)) = -2 ^ 38 := by
  have hA : getMaxPullAvailable d = 800 / 1000000 := by
    unfold getMaxPullAvailable
    rw [if_pos hc, maxPullRange]
  have hne : d.baseFrequencyHz ≠ 0 := ne_of_gt hb
  have h0 : limitedOffsetHz d (d.baseFrequencyHz * (1 - 800 / 1000000))
      = -(d.baseFrequencyHz * (800 / 1000000)) := by
    unfold limitedOffsetHz
    simp only [hA]
    have e : d.baseFrequencyHz * (1 - 800 / 1000000) - d.baseFrequencyHz
        = -(d.baseFrequencyHz * (800 / 1000000)) := by ring
    have hp : 0 < d.baseFrequencyHz * (800 / 1000000) := by positivity
    rw [e, if_neg (by linarith), if_neg (by linarith)]
  have h1 : scaledFreqControl d (d.baseFrequencyHz * (1 - 800 / 1000000))
      = ((-2 ^ 38 : Int) : ℚ) := by
    unfold scaledFreqControl offsetFraction
    rw [h0, maxPullRange, neg_div, div_self (by positivity)]
    norm_num
  rw [freqControlInt_eq, h1, doubleToInt64_intCast]
  decide

/-- Targets beyond the clipped pull are limited to the same offset as the boundary. -/
theorem limitedOffsetHz_saturates (d : Driver) (freq : ℚ) (hb : 0 < d.baseFrequencyHz) :
    (freq - d.baseFrequencyHz > d.baseFrequencyHz * getMaxPullAvailable d →
        limitedOffsetHz d freq =
          limitedOffsetHz d (d.baseFrequencyHz + d.baseFrequencyHz * getMaxPullAvailable d)) ∧
      (freq - d.baseFrequencyHz < -(d.baseFrequencyHz * getMaxPullAvailable d) →
        limitedOffsetHz d freq =
          limitedOffsetHz d (d.baseFrequencyHz - d.baseFrequencyHz * getMaxPullAvailable d)) := by
  have hBA : 0 < d.baseFrequencyHz * getMaxPullAvailable d :=
    mul_pos hb (getMaxPullAvailable_pos d)
  constructor
  · intro h
    rw [limitedOffsetHz_eq_clamp d freq hb, limitedOffsetHz_eq_clamp d _ hb]
    rw [min_eq_right (le_of_lt h), add_sub_cancel_left, min_self]
  · intro h
    rw [limitedOffsetHz_eq_clamp d freq hb, limitedOffsetHz_eq_clamp d _ hb]
    have e : d.baseFrequencyHz - d.baseFrequencyHz * getMaxPullAvailable d - d.baseFrequencyHz
        = -(d.baseFrequencyHz * getMaxPullAvailable d) := by ring
    rw [e, min_eq_left (by linarith), max_eq_left (le_of_lt h),
      min_eq_left (by linarith), max_self]

theorem freqControlInt_congr (d : Driver) (f g : ℚ)
    (h : limitedOffsetHz d f = limitedOffsetHz d g) : freqControlInt d f = freqControlInt d g := by
  rw [freqControlInt_eq, freqControlInt_eq]
  unfold scaledFreqControl offsetFraction
  rw [h]

/-- The specification reading of the top-seven-bits decoding, in arithmetic form. -/
theorem specControlWordHigh7_eq (b0 b1 b2 b3 b4 b5 : Nat)
    (h0 : b0 < 256) (h1 : b1 < 256) (h2 : b2 < 256) (h3 : b3 < 256) (h4 : b4 < 256)
    (h5 : b5 < 256) :
    specControlWordHigh7 b0 b1 b2 b3 b4 b5 =
      if b0 < 128 then
        ((b0 * 2 ^ 31 + b1 * 2 ^ 23 + b2 * 2 ^ 15 + b3 * 2 ^ 7 + b4 / 2 : Nat) : Int)
      else
        ((b0 * 2 ^ 31 + b1 * 2 ^ 23 + b2 * 2 ^ 15 + b3 * 2 ^ 7 + b4 / 2 : Nat) : Int) - 2 ^ 39 := by
  have hm := Nat.and_pow_two_sub_one_eq_mod ((b4 * 256 + b5) >>> 9) 7
  simp only [Nat.shiftRight_eq_div_pow] at hm
  norm_num at hm
  simp only [specControlWordHigh7, Nat.shiftLeft_eq, Nat.shiftRight_eq_div_pow,
    Nat.testBit_to_div_mod, decide_eq_true_eq]
  norm_num only [] at hm ⊢
  rw [hm]
  have hf : (b4 * 256 + b5) / 512 % 128 = b4 / 2 := by omega
  have hA : (b0 * 256 + b1) * 8388608 = 2 ^ 23 * (b0 * 256 + b1) := by omega
  rw [hf, hA, ← Nat.mul_add_lt_is_or (by omega : (b2 * 256 + b3) * 128 < 2 ^ 23)]
  have hC : 2 ^ 23 * (b0 * 256 + b1) + (b2 * 256 + b3) * 128
      = 2 ^ 7 * ((b0 * 256 + b1) * 2 ^ 16 + (b2 * 256 + b3)) := by omega
  rw [hC, ← Nat.mul_add_lt_is_or (by omega : b4 / 2 < 2 ^ 7)]
  split
  · rename_i hs
    rw [or_signExt_eq _ (by omega) (by omega), signed64]
    have hb : ¬ b0 < 128 := by omega
    rw [if_neg (by omega), if_neg hb]
    push_cast
    omega
  · rename_i hs
    rw [signed64]
    have hb : b0 < 128 := by omega
    rw [if_pos (by omega), if_pos hb]
    push_cast
    omega

/-! ## Register codec: claims -/

/-- C1 (round-trip codec). For every control word `v` with `-2^38 ≤ v ≤ 2^38 - 1`:
decoding the six bytes that `setFrequencyControlWord v` puts in its buffer gives `v`;
those six bytes are what the call hands to the bus write at register `0x0C`; and a
`readRegisters` whose bus read returns them stores exactly `v`. -/
theorem roundtrip_codec {β : Type} (bus : Bus β) (v : Int) (hlo : -2 ^ 38 ≤ v)
    (hhi : v ≤ 2 ^ 38 - 1) (d d2 : Driver) (b b2 b3 : β)
    (hread : bus.readRegisterRegion kSfeSiT5811RegControlMSW 6 b2
      = (⟨kSTkErrOk, controlBytes v, 6⟩, b3)) :
    controlWordOfBytes (controlBytes v) = v ∧
      (setFrequencyControlWord bus v d b).2.2
        = (bus.writeRegisterRegion kSfeSiT5811RegControlMSW (controlBytes v) b).2 ∧
      readRegisters bus d2 b2 = (true, { d2 with frequencyControl := v }, b3) := by
  have hrt := controlWordOfBytes_controlBytes v hlo hhi
  refine ⟨hrt, ?_, ?_⟩
  · unfold setFrequencyControlWord
    simp only
    split <;> rfl
  · unfold readRegisters
    simp only [hread, ne_eq, not_true_eq_false, if_false, hrt]

/-- Witness for C1: the word `-5` written to and read back from the loop-back bus. -/
theorem roundtrip_codec_witness :
    (-2 ^ 38 ≤ (-5 : Int) ∧ (-5 : Int) ≤ 2 ^ 38 - 1) ∧
      controlBytes (-5) = [0xFF, 0xFF, 0xFF, 0xFF, 0xF6, 0] ∧
      readRegisters loopbackBus defaultDriver (controlBytes (-5))
        = (true, { defaultDriver with frequencyControl := -5 }, controlBytes (-5)) :=
  ⟨by decide, by decide,
    (roundtrip_codec loopbackBus (-5) (by decide) (by decide) defaultDriver defaultDriver
      [] (controlBytes (-5)) (controlBytes (-5)) rfl).2.2⟩

/-- C2 (encode layout). For every `v` (in particular every `v` with
`-2^38 ≤ v ≤ 2^38 - 1`), with `u` the 39-bit two's-complement form of `v`, the six bytes that `setFrequencyControlWord v` hands to the
bus write are `u[38:31]`, `u[30:23]`, `u[22:15]`, `u[14:7]`, `u[6:0]` shifted left by one
(an even byte), and `0`; `v = -1` gives `FF FF FF FF FE 00` and `v = 0` six zero bytes. -/
theorem encode_layout {β : Type} (bus : Bus β) (v : Int) (d : Driver) (b : β) :
    controlBytes v =
        [ bits (twosComplement39 v) 38 31, bits (twosComplement39 v) 30 23,
          bits (twosComplement39 v) 22 15, bits (twosComplement39 v) 14 7,
          bits (twosComplement39 v) 6 0 <<< 1, 0 ] ∧
      (bits (twosComplement39 v) 6 0 <<< 1) % 2 = 0 ∧
      (setFrequencyControlWord bus v d b).2.2
        = (bus.writeRegisterRegion kSfeSiT5811RegControlMSW
            [ bits (twosComplement39 v) 38 31, bits (twosComplement39 v) 30 23,
              bits (twosComplement39 v) 22 15, bits (twosComplement39 v) 14 7,
              bits (twosComplement39 v) 6 0 <<< 1, 0 ] b).2 ∧
      controlBytes (-1) = [0xFF, 0xFF, 0xFF, 0xFF, 0xFE, 0x00] ∧
      controlBytes 0 = [0, 0, 0, 0, 0, 0] := by
  have hu : (unsigned64 v : Int) = v % 2 ^ 64 := by
    unfold unsigned64
    omega
  have ht : (twosComplement39 v : Int) = v % 2 ^ 39 := by
    unfold twosComplement39
    omega
  have hb1 : ∀ u, bits u 38 31 = u / 2 ^ 31 % 256 := fun _ => rfl
  have hb2 : ∀ u, bits u 30 23 = u / 2 ^ 23 % 256 := fun _ => rfl
  have hb3 : ∀ u, bits u 22 15 = u / 2 ^ 15 % 256 := fun _ => rfl
  have hb4 : ∀ u, bits u 14 7 = u / 2 ^ 7 % 256 := fun _ => rfl
  have hb5 : ∀ u, bits u 6 0 = u / 2 ^ 0 % 128 := fun _ => rfl
  have hbytes : controlBytes v =
      [ bits (twosComplement39 v) 38 31, bits (twosComplement39 v) 30 23,
        bits (twosComplement39 v) 22 15, bits (twosComplement39 v) 14 7,
        bits (twosComplement39 v) 6 0 <<< 1, 0 ] := by
    rw [controlBytes_eq, hb1, hb2, hb3, hb4, hb5, Nat.shiftLeft_eq]
    generalize unsigned64 v = u at hu
    generalize twosComplement39 v = t at ht
    have e1 : u / 2 ^ 31 % 256 = t / 2 ^ 31 % 256 := by omega
    have e2 : u / 2 ^ 23 % 256 = t / 2 ^ 23 % 256 := by omega
    have e3 : u / 2 ^ 15 % 256 = t / 2 ^ 15 % 256 := by omega
    have e4 : u / 2 ^ 7 % 256 = t / 2 ^ 7 % 256 := by omega
    have e5 : u % 128 * 2 = t / 2 ^ 0 % 128 * 2 ^ 1 := by omega
    rw [e1, e2, e3, e4, e5]
  refine ⟨hbytes, ?_, ?_, by decide, by decide⟩
  · rw [Nat.shiftLeft_eq]
    omega
  · rw [← hbytes]
    unfold setFrequencyControlWord
    simp only
    split <;> rfl

/-- C3, as stated, fails: for the block `00 00 00 00 FE 00` the specification formula
with `LSW & 0x7F` gives `0`, while `readRegisters` stores `127`. -/
theorem decode_low7_counterexample :
    specControlWordLow7 0 0 0 0 0xFE 0 = 0 ∧
      (readRegisters loopbackBus defaultDriver [0, 0, 0, 0, 0xFE, 0]).2.1.frequencyControl = 127 ∧
      (readRegisters loopbackBus defaultDriver [0, 0, 0, 0, 0xFE, 0]).2.1.frequencyControl
        ≠ specControlWordLow7 0 0 0 0 0xFE 0 := by
  refine ⟨by decide, by decide, by decide⟩

/-- C3 (decode control word, amended). For every 6-byte block read successfully from
register `0x0C`, with MSW, NSW, LSW its three big-endian 16-bit words, `readRegisters`
stores the 64-bit signed value of `raw = (MSW << 23) | (NSW << 7) | ((LSW >> 9) & 0x7F)`
(the top seven bits of the LSW; its low nine bits are ignored), sign-extended from bit 38
by OR-ing `0xFFFFFFC000000000` when bit 38 of `raw` is set. -/
theorem decode_control_word {β : Type} (bus : Bus β) (d : Driver) (b b' : β)
    (b0 b1 b2 b3 b4 b5 : Nat)
    (h0 : b0 < 256) (h1 : b1 < 256) (h2 : b2 < 256) (h3 : b3 < 256) (h4 : b4 < 256)
    (h5 : b5 < 256)
    (hread : bus.readRegisterRegion kSfeSiT5811RegControlMSW 6 b
      = (⟨kSTkErrOk, [b0, b1, b2, b3, b4, b5], 6⟩, b')) :
    readRegisters bus d b
      = (true, { d with frequencyControl := specControlWordHigh7 b0 b1 b2 b3 b4 b5 }, b') := by
  unfold readRegisters
  simp only [hread, ne_eq, not_true_eq_false, if_false]
  rw [controlWordOfBytes_eq b0 b1 b2 b3 b4 b5 h0 h1 h2 h3 h4 h5,
    specControlWordHigh7_eq b0 b1 b2 b3 b4 b5 h0 h1 h2 h3 h4 h5]

/-- Witness for C3: the block `FF FF FF FF FF FF` decodes to `-1`. -/
theorem decode_control_word_witness :
    specControlWordHigh7 0xFF 0xFF 0xFF 0xFF 0xFF 0xFF = -1 ∧
      readRegisters loopbackBus defaultDriver [0xFF, 0xFF, 0xFF, 0xFF, 0xFF, 0xFF]
        = (true, { defaultDriver with
                    frequencyControl := specControlWordHigh7 0xFF 0xFF 0xFF 0xFF 0xFF 0xFF },
           [0xFF, 0xFF, 0xFF, 0xFF, 0xFF, 0xFF]) :=
  ⟨by decide,
    decode_control_word loopbackBus defaultDriver [0xFF, 0xFF, 0xFF, 0xFF, 0xFF, 0xFF]
      [0xFF, 0xFF, 0xFF, 0xFF, 0xFF, 0xFF] 0xFF 0xFF 0xFF 0xFF 0xFF 0xFF
      (by decide) (by decide) (by decide) (by decide) (by decide) (by decide) rfl⟩

/-- C10 (decode clip). For every 2-byte block `(b0, b1)` read successfully from register
`0x00`, `readClipRegister` caches `((b0 << 8) | b1) & 0x1FFF`, the low 13 bits of the
big-endian word, and leaves everything else alone; the cached clip is at most 8191. -/
theorem decode_clip {β : Type} (bus : Bus β) (d : Driver) (b b' : β) (b0 b1 : Nat)
    (h0 : b0 < 256) (h1 : b1 < 256)
    (hread : bus.readRegisterRegion kSfeSiT5811RegClip 2 b = (⟨kSTkErrOk, [b0, b1], 2⟩, b')) :
    readClipRegister bus d b = (true, { d with clip := ((b0 <<< 8) ||| b1) &&& 0x1FFF }, b') ∧
      ((b0 <<< 8) ||| b1) &&& 0x1FFF = (b0 * 256 + b1) % 8192 ∧
      (readClipRegister bus d b).2.1.clip ≤ 8191 := by
  have hw := word16_eq b0 b1 h0 h1
  have hor : (b0 <<< 8) ||| b1 = b0 * 256 + b1 := by
    rw [shl_or_eq b0 b1 8 (by omega)]
    omega
  have hclip : clipOfBytes [b0, b1] = ((b0 <<< 8) ||| b1) &&& 0x1FFF := by
    simp only [clipOfBytes, List.getD_cons_zero, List.getD_cons_succ]
    rw [hw, hor, clipField]
  have hmod : ((b0 <<< 8) ||| b1) &&& 0x1FFF = (b0 * 256 + b1) % 8192 := by
    rw [hor]
    exact clipField_eq _
  have hres : readClipRegister bus d b
      = (true, { d with clip := ((b0 <<< 8) ||| b1) &&& 0x1FFF }, b') := by
    unfold readClipRegister
    simp only [hread, ne_eq, not_true_eq_false, if_false, hclip]
  refine ⟨hres, hmod, ?_⟩
  rw [hres]
  simp only
  rw [hmod]
  omega

/-- Witness for C10: the block `FF FF` gives the clip 8191. -/
theorem decode_clip_witness :
    (readClipRegister loopbackBus defaultDriver [0xFF, 0xFF]).2.1.clip = 8191 ∧
      readClipRegister loopbackBus defaultDriver [0xFF, 0xFF]
        = (true, { defaultDriver with clip := ((0xFF <<< 8) ||| 0xFF) &&& 0x1FFF },
            [0xFF, 0xFF]) :=
  ⟨by decide,
    (decode_clip loopbackBus defaultDriver [0xFF, 0xFF] [0xFF, 0xFF] 0xFF 0xFF
      (by decide) (by decide) rfl).1⟩

/-! ## Pull range and frequency conversion: claims -/

/-- A successful `setFrequencyHz` caches the word it computed and nothing else. -/
theorem setFrequencyHz_success {β : Type} (bus : Bus β) (d : Driver) (b : β) (target : ℚ)
    (hok : (setFrequencyHz bus target d b).1 = true) :
    (setFrequencyHz bus target d b).2.1
      = { d with frequencyControl := freqControlInt d target } := by
  unfold setFrequencyHz setFrequencyControlWord at hok ⊢
  simp only at hok ⊢
  split
  · rename_i h
    rw [if_pos h] at hok
    exact absurd hok (by simp)
  · rfl

/-- C4 (frequency clamp boundedness, exact arithmetic). For every base frequency `> 0`,
every clip in `[0, 8191]` and every target, after a successful `setFrequencyHz target`
the frequency `getFrequencyHz` reports for the cached (written) control word lies in
`[base - base * availablePull, base + base * availablePull]`, where `availablePull` is
`getMaxPullAvailable` (unchanged by the call). -/
theorem frequency_clamp_bounded {β : Type} (bus : Bus β) (d : Driver) (b : β) (target : ℚ)
    (hb : 0 < d.baseFrequencyHz) (hc : d.clip ≤ 8191)
    (hok : (setFrequencyHz bus target d b).1 = true) :
    getMaxPullAvailable (setFrequencyHz bus target d b).2.1 = getMaxPullAvailable d ∧
      d.baseFrequencyHz - d.baseFrequencyHz * getMaxPullAvailable d
        ≤ getFrequencyHz (setFrequencyHz bus target d b).2.1 ∧
      getFrequencyHz (setFrequencyHz bus target d b).2.1
        ≤ d.baseFrequencyHz + d.baseFrequencyHz * getMaxPullAvailable d := by
  rw [setFrequencyHz_success bus d b target hok]
  exact ⟨rfl, getFrequencyHz_freqControlInt_bounds d target hb hc⟩

/-- Witness for C4: a target far above the range, on the loop-back bus. -/
theorem frequency_clamp_bounded_witness :
    (0 < defaultDriver.baseFrequencyHz ∧ defaultDriver.clip ≤ 8191 ∧
        (setFrequencyHz loopbackBus 20000000 defaultDriver []).1 = true) ∧
      getFrequencyHz (setFrequencyHz loopbackBus 20000000 defaultDriver []).2.1
        ≤ defaultDriver.baseFrequencyHz
            + defaultDriver.baseFrequencyHz * getMaxPullAvailable defaultDriver :=
  ⟨⟨by simp [defaultDriver], by decide, rfl⟩,
    (frequency_clamp_bounded loopbackBus defaultDriver [] 20000000 (by simp [defaultDriver])
      (by decide) rfl).2.2⟩

/-- C5 (Hz to control word, exact arithmetic). For base `> 0`, clip in `[0, 8191]` and any
target, `setFrequencyHz target` writes the word of the specification: the offset
`target - base` clamped to `± base * availablePull`, divided by `base * 800e-6`, clamped
to `[-1, 1]`, scaled by `2^38 - 1` (non-negative) or `2^38` (negative), truncated toward
zero and clamped to `[-274877906944, 274877906943]`. In particular `target = base`
writes `0`, and with clip `0` the targets `base * (1 + 800e-6)` and `base * (1 - 800e-6)`
write `2^38 - 1` and `-2^38`. -/
theorem hz_to_control_word {β : Type} (bus : Bus β) (d : Driver) (b : β) (target : ℚ)
    (hb : 0 < d.baseFrequencyHz) (hc : d.clip ≤ 8191) :
    setFrequencyHz bus target d b
        = setFrequencyControlWord bus
            (specHzToWord d.baseFrequencyHz (getMaxPullAvailable d) target) d b ∧
      setFrequencyHz bus d.baseFrequencyHz d b = setFrequencyControlWord bus 0 d b ∧
      (d.clip = 0 →
        setFrequencyHz bus (d.baseFrequencyHz * (1 + 800 / 1000000)) d b
            = setFrequencyControlWord bus (2 ^ 38 - 1) d b ∧
          setFrequencyHz bus (d.baseFrequencyHz * (1 - 800 / 1000000)) d b
            = setFrequencyControlWord bus (-2 ^ 38) d b) := by
  refine ⟨?_, ?_, fun h0 => ⟨?_, ?_⟩⟩
  · rw [setFrequencyHz, freqControlInt_eq_spec d target hb hc]
  · rw [setFrequencyHz, freqControlInt_base d hb]
  · rw [setFrequencyHz, freqControlInt_top d hb h0]
  · rw [setFrequencyHz, freqControlInt_bottom d hb h0]

/-- Witness for C5: the default driver (base 10 MHz, clip 0) asked for the top of the
range writes `2^38 - 1`. -/
theorem hz_to_control_word_witness :
    (0 < defaultDriver.baseFrequencyHz ∧ defaultDriver.clip ≤ 8191) ∧
      setFrequencyHz loopbackBus (defaultDriver.baseFrequencyHz * (1 + 800 / 1000000))
          defaultDriver []
        = setFrequencyControlWord loopbackBus (2 ^ 38 - 1) defaultDriver [] :=
  ⟨⟨by simp [defaultDriver], by decide⟩,
    ((hz_to_control_word loopbackBus defaultDriver [] 0 (by simp [defaultDriver])
      (by decide)).2.2 rfl).1⟩

/-- C6 (saturation, exact arithmetic, amended). In exact arithmetic, for every base
`> 0`, every clip and every target with `target - base > base * availablePull`,
`setFrequencyHz target` behaves exactly as
`setFrequencyHz (base + base * availablePull)` (same word written, same result);
symmetrically a target with `target - base < -(base * availablePull)` behaves as
`setFrequencyHz (base - base * availablePull)`. -/
theorem saturation {β : Type} (bus : Bus β) (d : Driver) (b : β) (target : ℚ)
    (hb : 0 < d.baseFrequencyHz) :
    (target - d.baseFrequencyHz > d.baseFrequencyHz * getMaxPullAvailable d →
        freqControlInt d target
            = freqControlInt d
                (d.baseFrequencyHz + d.baseFrequencyHz * getMaxPullAvailable d) ∧
          setFrequencyHz bus target d b
            = setFrequencyHz bus
                (d.baseFrequencyHz + d.baseFrequencyHz * getMaxPullAvailable d) d b) ∧
      (target - d.baseFrequencyHz < -(d.baseFrequencyHz * getMaxPullAvailable d) →
        freqControlInt d target
            = freqControlInt d
                (d.baseFrequencyHz - d.baseFrequencyHz * getMaxPullAvailable d) ∧
          setFrequencyHz bus target d b
            = setFrequencyHz bus
                (d.baseFrequencyHz - d.baseFrequencyHz * getMaxPullAvailable d) d b) := by
  obtain ⟨hup, hdown⟩ := limitedOffsetHz_saturates d target hb
  constructor
  · intro h
    have e := freqControlInt_congr d _ _ (hup h)
    exact ⟨e, by rw [setFrequencyHz, setFrequencyHz, e]⟩
  · intro h
    have e := freqControlInt_congr d _ _ (hdown h)
    exact ⟨e, by rw [setFrequencyHz, setFrequencyHz, e]⟩

/-- Witness for C6: in exact arithmetic, 20 MHz asked of a 10 MHz oscillator saturates
at the top word. -/
theorem saturation_witness :
    (0 < defaultDriver.baseFrequencyHz ∧
        (20000000 : ℚ) - defaultDriver.baseFrequencyHz
          > defaultDriver.baseFrequencyHz * getMaxPullAvailable defaultDriver) ∧
      freqControlInt defaultDriver 20000000
        = freqControlInt defaultDriver
            (defaultDriver.baseFrequencyHz
              + defaultDriver.baseFrequencyHz * getMaxPullAvailable defaultDriver) :=
  ⟨⟨by simp [defaultDriver], by norm_num [defaultDriver, getMaxPullAvailable, maxPullRange]⟩,
    ((saturation loopbackBus defaultDriver [] 20000000 (by simp [defaultDriver])).1
      (by norm_num [defaultDriver, getMaxPullAvailable, maxPullRange])).1⟩

/-- C7 (control word to Hz, exact arithmetic). For every cached control word `w` and base
frequency `b`, `getFrequencyHz = b + b * f * 800e-6` with `f = w / (2^38 - 1)` when
`w ≥ 0` and `f = w / 2^38` when `w < 0`, whatever the clip; `w = 0` gives exactly `b`, and
`w = 2^38 - 1` with `b = 10,000,000` gives `10,008,000`. -/
theorem control_word_to_hz (d : Driver) :
    getFrequencyHz d
        = d.baseFrequencyHz
          + d.baseFrequencyHz
            * (if 0 ≤ d.frequencyControl then (d.frequencyControl : ℚ) / (2 ^ 38 - 1)
               else (d.frequencyControl : ℚ) / 2 ^ 38)
            * (800 / 1000000) ∧
      (∀ clip : Nat, getFrequencyHz { d with clip := clip } = getFrequencyHz d) ∧
      getFrequencyHz { d with frequencyControl := 0 } = d.baseFrequencyHz ∧
      getFrequencyHz { d with frequencyControl := 2 ^ 38 - 1, baseFrequencyHz := 10000000 }
        = 10008000 := by
  refine ⟨?_, fun _ => rfl, ?_, ?_⟩
  · unfold getFrequencyHz maxPullRange
    simp only [ge_iff_le, Int.cast_nonneg]
  · unfold getFrequencyHz
    simp
  · unfold getFrequencyHz maxPullRange
    norm_num

/-- C8 (pull-range model, exact arithmetic). `getMaxPullAvailable` is `800e-6` when the
cached clip is `0` and `(clip / 2^13) * 800e-6` otherwise; clip `0` gives exactly `800e-6`
and clip `4096` exactly `400e-6`. -/
theorem pull_range_model (d : Driver) :
    getMaxPullAvailable d
        = (if d.clip = 0 then 800 / 1000000 else (d.clip : ℚ) / 2 ^ 13 * (800 / 1000000)) ∧
      getMaxPullAvailable { d with clip := 0 } = 800 / 1000000 ∧
      getMaxPullAvailable { d with clip := 4096 } = 400 / 1000000 := by
  refine ⟨rfl, rfl, ?_⟩
  unfold getMaxPullAvailable maxPullRange
  norm_num

/-- C9 (clip scaling monotonicity and ceiling). For non-zero clips `clip1 < clip2` (in
particular those in `[1, 8191]`) the available pull of `clip1` is strictly below that of `clip2`; the
available pull of clip `0` is `maxPullRange`; and for every clip in `[0, 8191]` the
available pull is non-negative and at most `maxPullRange`. -/
theorem clip_scaling_monotone (d : Driver) (clip1 clip2 clip : Nat) (h1 : 1 ≤ clip1)
    (h12 : clip1 < clip2) (hc : clip ≤ 8191) :
    getMaxPullAvailable { d with clip := clip1 } < getMaxPullAvailable { d with clip := clip2 } ∧
      getMaxPullAvailable { d with clip := 0 } = maxPullRange ∧
      0 ≤ getMaxPullAvailable { d with clip := clip } ∧
      getMaxPullAvailable { d with clip := clip } ≤ maxPullRange := by
  refine ⟨?_, rfl, (getMaxPullAvailable_pos _).le, getMaxPullAvailable_le _ hc⟩
  unfold getMaxPullAvailable
  simp only
  rw [if_neg (by omega), if_neg (by omega)]
  have hq : (clip1 : ℚ) < (clip2 : ℚ) := by exact_mod_cast h12
  have hR := maxPullRange_pos
  apply mul_lt_mul_of_pos_right _ hR
  exact div_lt_div_of_pos_right hq (by norm_num)

/-- Witness for C9: clips 1 and 2, and the largest clip 8191. -/
theorem clip_scaling_monotone_witness :
    (1 ≤ 1 ∧ 1 < 2 ∧ 8191 ≤ 8191) ∧
      getMaxPullAvailable { defaultDriver with clip := 1 }
        < getMaxPullAvailable { defaultDriver with clip := 2 } ∧
      getMaxPullAvailable { defaultDriver with clip := 8191 } ≤ maxPullRange :=
  ⟨by decide,
    (clip_scaling_monotone defaultDriver 1 2 8191 (by decide) (by decide) (by decide)).1,
    (clip_scaling_monotone defaultDriver 1 2 8191 (by decide) (by decide) (by decide)).2.2.2⟩

/-! ## Bus failures and the decoded range: lemmas -/

/-- A control read that the driver accepts stores the decoding of its buffer. -/
theorem readRegisters_ok {β : Type} (bus : Bus β) (d : Driver) (b b' : β) (theBytes : List Nat)
    (hread : bus.readRegisterRegion kSfeSiT5811RegControlMSW 6 b
      = (⟨kSTkErrOk, theBytes, 6⟩, b')) :
    readRegisters bus d b
      = (true, { d with frequencyControl := controlWordOfBytes theBytes }, b') := by
  unfold readRegisters
  simp only [hread, ne_eq, not_true_eq_false, if_false]

/-- Every 6-byte block decodes to a 39-bit two's-complement value. -/
theorem controlWordOfBytes_range (b0 b1 b2 b3 b4 b5 : Nat)
    (h0 : b0 < 256) (h1 : b1 < 256) (h2 : b2 < 256) (h3 : b3 < 256) (h4 : b4 < 256)
    (h5 : b5 < 256) :
    -2 ^ 38 ≤ controlWordOfBytes [b0, b1, b2, b3, b4, b5] ∧
      controlWordOfBytes [b0, b1, b2, b3, b4, b5] ≤ 2 ^ 38 - 1 := by
  rw [controlWordOfBytes_eq b0 b1 b2 b3 b4 b5 h0 h1 h2 h3 h4 h5]
  split <;> constructor <;> push_cast <;> omega

theorem and_0xFE_eq (x : Nat) (hx : x < 256) : x &&& 0xFE = x / 2 * 2 := by
  interval_cases x <;> rfl

/-- Encoding the decoding of a block keeps the 39 data bits and clears the rest. -/
theorem controlBytes_controlWordOfBytes (b0 b1 b2 b3 b4 b5 : Nat)
    (h0 : b0 < 256) (h1 : b1 < 256) (h2 : b2 < 256) (h3 : b3 < 256) (h4 : b4 < 256)
    (h5 : b5 < 256) :
    controlBytes (controlWordOfBytes [b0, b1, b2, b3, b4, b5])
      = [b0, b1, b2, b3, b4 &&& 0xFE, 0x00] := by
  obtain ⟨hlo, hhi⟩ := controlWordOfBytes_range b0 b1 b2 b3 b4 b5 h0 h1 h2 h3 h4 h5
  have hu := unsigned64_eq _ hlo hhi
  have hv := controlWordOfBytes_eq b0 b1 b2 b3 b4 b5 h0 h1 h2 h3 h4 h5
  rw [controlBytes_eq, and_0xFE_eq b4 h4]
  generalize controlWordOfBytes [b0, b1, b2, b3, b4, b5] = v at hu hv hlo hhi ⊢
  generalize unsigned64 v = u at hu ⊢
  have e0 : u / 2 ^ 31 % 256 = b0 := by
    split at hu <;> split at hv <;> omega
  have e1 : u / 2 ^ 23 % 256 = b1 := by
    split at hu <;> split at hv <;> omega
  have e2 : u / 2 ^ 15 % 256 = b2 := by
    split at hu <;> split at hv <;> omega
  have e3 : u / 2 ^ 7 % 256 = b3 := by
    split at hu <;> split at hv <;> omega
  have e4 : u % 128 * 2 = b4 / 2 * 2 := by
    split at hu <;> split at hv <;> omega
  rw [e0, e1, e2, e3, e4]

/-! ## Bus failures, initialisation and the decoded range: claims -/

/-- C19 (decoded range invariant). For every 6-byte block the bus returns, reserved
bits included, a successful `readRegisters` caches a control word in
`[-2^38, 2^38 - 1]`. -/
theorem decoded_range {β : Type} (bus : Bus β) (d : Driver) (b b' : β)
    (b0 b1 b2 b3 b4 b5 : Nat)
    (h0 : b0 < 256) (h1 : b1 < 256) (h2 : b2 < 256) (h3 : b3 < 256) (h4 : b4 < 256)
    (h5 : b5 < 256)
    (hread : bus.readRegisterRegion kSfeSiT5811RegControlMSW 6 b
      = (⟨kSTkErrOk, [b0, b1, b2, b3, b4, b5], 6⟩, b')) :
    (readRegisters bus d b).1 = true ∧
      -2 ^ 38 ≤ (readRegisters bus d b).2.1.frequencyControl ∧
      (readRegisters bus d b).2.1.frequencyControl ≤ 2 ^ 38 - 1 := by
  rw [readRegisters_ok bus d b b' _ hread]
  exact ⟨rfl, controlWordOfBytes_range b0 b1 b2 b3 b4 b5 h0 h1 h2 h3 h4 h5⟩

/-- Witness for C19: the block `80 00 00 00 01 FF` decodes to the smallest word. -/
theorem decoded_range_witness :
    (readRegisters loopbackBus defaultDriver [0x80, 0, 0, 0, 0x01, 0xFF]).2.1.frequencyControl
        = -2 ^ 38 ∧
      -2 ^ 38 ≤
        (readRegisters loopbackBus defaultDriver
          [0x80, 0, 0, 0, 0x01, 0xFF]).2.1.frequencyControl :=
  ⟨by decide,
    (decoded_range loopbackBus defaultDriver [0x80, 0, 0, 0, 0x01, 0xFF]
      [0x80, 0, 0, 0, 0x01, 0xFF] 0x80 0 0 0 0x01 0xFF
      (by decide) (by decide) (by decide) (by decide) (by decide) (by decide) rfl).2.1⟩

/-- C20 (reverse round trip). For every 6-byte block `b0 .. b5` that `readRegisters`
decodes, writing the decoded control word back with `setFrequencyControlWord` hands
exactly `b0, b1, b2, b3, b4 & 0xFE, 0x00` to the bus write at register `0x0C`. -/
theorem reverse_roundtrip {β : Type} (bus : Bus β) (d : Driver) (b b' bw : β)
    (b0 b1 b2 b3 b4 b5 : Nat)
    (h0 : b0 < 256) (h1 : b1 < 256) (h2 : b2 < 256) (h3 : b3 < 256) (h4 : b4 < 256)
    (h5 : b5 < 256)
    (hread : bus.readRegisterRegion kSfeSiT5811RegControlMSW 6 b
      = (⟨kSTkErrOk, [b0, b1, b2, b3, b4, b5], 6⟩, b')) :
    controlBytes (getFrequencyControlWord (readRegisters bus d b).2.1)
        = [b0, b1, b2, b3, b4 &&& 0xFE, 0x00] ∧
      (setFrequencyControlWord bus (getFrequencyControlWord (readRegisters bus d b).2.1)
          (readRegisters bus d b).2.1 bw).2.2
        = (bus.writeRegisterRegion kSfeSiT5811RegControlMSW
            [b0, b1, b2, b3, b4 &&& 0xFE, 0x00] bw).2 := by
  have hb := controlBytes_controlWordOfBytes b0 b1 b2 b3 b4 b5 h0 h1 h2 h3 h4 h5
  rw [readRegisters_ok bus d b b' _ hread]
  simp only [getFrequencyControlWord]
  refine ⟨hb, ?_⟩
  unfold setFrequencyControlWord
  simp only [hb]
  split <;> rfl

/-- Witness for C20: the block `12 34 56 78 9B CD` is written back as
`12 34 56 78 9A 00`. -/
theorem reverse_roundtrip_witness :
    (setFrequencyControlWord loopbackBus
        (getFrequencyControlWord
          (readRegisters loopbackBus defaultDriver [0x12, 0x34, 0x56, 0x78, 0x9B, 0xCD]).2.1)
        (readRegisters loopbackBus defaultDriver [0x12, 0x34, 0x56, 0x78, 0x9B, 0xCD]).2.1
        []).2.2
      = [0x12, 0x34, 0x56, 0x78, 0x9A, 0x00] :=
  (reverse_roundtrip loopbackBus defaultDriver [0x12, 0x34, 0x56, 0x78, 0x9B, 0xCD]
    [0x12, 0x34, 0x56, 0x78, 0x9B, 0xCD] [] 0x12 0x34 0x56 0x78 0x9B 0xCD
    (by decide) (by decide) (by decide) (by decide) (by decide) (by decide) rfl).2

/-- C11 (atomicity on bus failure). A clip or control read that fails, or reports a
byte count other than 2 (clip) or 6 (control), makes the operation return `false` with
the whole driver state unchanged; a failing 6-byte write makes `setFrequencyControlWord`
and `setFrequencyHz` return `false` with the whole driver state unchanged; and whenever
either of them changes the cached control word, the write succeeded. -/
theorem atomicity_on_bus_failure {β : Type} (bus : Bus β) (d : Driver) (b : β) (v : Int)
    (target : ℚ) :
    (¬ readOk 2 (bus.readRegisterRegion kSfeSiT5811RegClip 2 b).1 →
        readClipRegister bus d b
          = (false, d, (bus.readRegisterRegion kSfeSiT5811RegClip 2 b).2)) ∧
      (¬ readOk 6 (bus.readRegisterRegion kSfeSiT5811RegControlMSW 6 b).1 →
        readRegisters bus d b
          = (false, d, (bus.readRegisterRegion kSfeSiT5811RegControlMSW 6 b).2)) ∧
      ((bus.writeRegisterRegion kSfeSiT5811RegControlMSW (controlBytes v) b).1 ≠ kSTkErrOk →
        setFrequencyControlWord bus v d b
          = (false, d,
              (bus.writeRegisterRegion kSfeSiT5811RegControlMSW (controlBytes v) b).2)) ∧
      ((bus.writeRegisterRegion kSfeSiT5811RegControlMSW
            (controlBytes (freqControlInt d target)) b).1 ≠ kSTkErrOk →
        setFrequencyHz bus target d b
          = (false, d,
              (bus.writeRegisterRegion kSfeSiT5811RegControlMSW
                (controlBytes (freqControlInt d target)) b).2)) ∧
      ((setFrequencyControlWord bus v d b).2.1 ≠ d →
        (setFrequencyControlWord bus v d b).1 = true ∧
          (bus.writeRegisterRegion kSfeSiT5811RegControlMSW (controlBytes v) b).1
            = kSTkErrOk) ∧
      ((setFrequencyHz bus target d b).2.1 ≠ d →
        (setFrequencyHz bus target d b).1 = true ∧
          (bus.writeRegisterRegion kSfeSiT5811RegControlMSW
            (controlBytes (freqControlInt d target)) b).1 = kSTkErrOk) := by
  have hw : ∀ w : Int,
      ((bus.writeRegisterRegion kSfeSiT5811RegControlMSW (controlBytes w) b).1 ≠ kSTkErrOk →
        setFrequencyControlWord bus w d b
          = (false, d,
              (bus.writeRegisterRegion kSfeSiT5811RegControlMSW (controlBytes w) b).2)) ∧
      ((setFrequencyControlWord bus w d b).2.1 ≠ d →
        (setFrequencyControlWord bus w d b).1 = true ∧
          (bus.writeRegisterRegion kSfeSiT5811RegControlMSW (controlBytes w) b).1
            = kSTkErrOk) := by
    intro w
    unfold setFrequencyControlWord
    simp only
    constructor
    · intro h
      rw [if_pos h]
    · intro h
      by_cases he : (bus.writeRegisterRegion kSfeSiT5811RegControlMSW (controlBytes w) b).1
          ≠ kSTkErrOk
      · rw [if_pos he] at h
        exact absurd rfl h
      · rw [if_neg he]
        exact ⟨rfl, not_not.mp he⟩
  refine ⟨?_, ?_, (hw v).1, (hw (freqControlInt d target)).1, (hw v).2,
    (hw (freqControlInt d target)).2⟩
  · intro h
    unfold readClipRegister
    simp only
    unfold readOk at h
    by_cases he : (bus.readRegisterRegion kSfeSiT5811RegClip 2 b).1.err ≠ kSTkErrOk
    · rw [if_pos he]
    · rw [if_neg he, if_pos (fun hn => h ⟨not_not.mp he, hn⟩)]
  · intro h
    unfold readRegisters
    simp only
    unfold readOk at h
    by_cases he : (bus.readRegisterRegion kSfeSiT5811RegControlMSW 6 b).1.err ≠ kSTkErrOk
    · rw [if_pos he]
    · rw [if_neg he, if_pos (fun hn => h ⟨not_not.mp he, hn⟩)]

/-- Witness for C11: on a bus where every operation fails, a control read and a write
both return `false` and leave the driver as it was. -/
theorem atomicity_on_bus_failure_witness :
    readRegisters failingBus defaultDriver () = (false, defaultDriver, ()) ∧
      setFrequencyControlWord failingBus 5 defaultDriver () = (false, defaultDriver, ()) :=
  ⟨(atomicity_on_bus_failure failingBus defaultDriver () 5 0).2.1
      (fun h => absurd h.1 (by decide)),
    (atomicity_on_bus_failure failingBus defaultDriver () 5 0).2.2.1 (by decide)⟩

/-- C12, at the failing input `v = 2^38` with a succeeding write: the bytes handed to
the bus are `80 00 00 00 00 00`, the low 39 bits of `v`, which decode to `-2^38`; the
cached control word is `2^38`, outside `[-2^38, 2^38 - 1]`; a clamp would have written
`7F FF FF FF FE 00` and cached `2^38 - 1`. -/
theorem setFrequencyControlWord_no_clamp :
    (setFrequencyControlWord loopbackBus (2 ^ 38) defaultDriver []).1 = true ∧
      (setFrequencyControlWord loopbackBus (2 ^ 38) defaultDriver []).2.2
        = [0x80, 0, 0, 0, 0, 0] ∧
      controlWordOfBytes [0x80, 0, 0, 0, 0, 0] = -2 ^ 38 ∧
      (setFrequencyControlWord loopbackBus (2 ^ 38) defaultDriver []).2.1.frequencyControl
        = 2 ^ 38 ∧
      controlBytes (2 ^ 38 - 1) = [0x7F, 0xFF, 0xFF, 0xFF, 0xFE, 0] := by
  refine ⟨by decide, by decide, by decide, by decide, by decide⟩

/-! ## Initialisation: lemmas and claim -/

theorem readClipRegister_of_ok {β : Type} (bus : Bus β) (d : Driver) (s s' : β)
    (r : ReadResult) (hr : bus.readRegisterRegion kSfeSiT5811RegClip 2 s = (r, s'))
    (hok : readOk 2 r) :
    readClipRegister bus d s = (true, { d with clip := clipOfBytes r.theBytes }, s') := by
  unfold readClipRegister
  simp only [hr]
  rw [if_neg (not_not.mpr hok.1), if_neg (not_not.mpr hok.2)]

theorem readClipRegister_of_not_ok {β : Type} (bus : Bus β) (d : Driver) (s s' : β)
    (r : ReadResult) (hr : bus.readRegisterRegion kSfeSiT5811RegClip 2 s = (r, s'))
    (hno : ¬ readOk 2 r) :
    readClipRegister bus d s = (false, d, s') := by
  unfold readClipRegister
  simp only [hr]
  by_cases he : r.err ≠ kSTkErrOk
  · rw [if_pos he]
  · rw [if_neg he, if_pos (fun hn => hno ⟨not_not.mp he, hn⟩)]

theorem readRegisters_of_ok {β : Type} (bus : Bus β) (d : Driver) (s s' : β)
    (r : ReadResult) (hr : bus.readRegisterRegion kSfeSiT5811RegControlMSW 6 s = (r, s'))
    (hok : readOk 6 r) :
    readRegisters bus d s
      = (true, { d with frequencyControl := controlWordOfBytes r.theBytes }, s') := by
  unfold readRegisters
  simp only [hr]
  rw [if_neg (not_not.mpr hok.1), if_neg (not_not.mpr hok.2)]

theorem readRegisters_of_not_ok {β : Type} (bus : Bus β) (d : Driver) (s s' : β)
    (r : ReadResult) (hr : bus.readRegisterRegion kSfeSiT5811RegControlMSW 6 s = (r, s'))
    (hno : ¬ readOk 6 r) :
    readRegisters bus d s = (false, d, s') := by
  unfold readRegisters
  simp only [hr]
  by_cases he : r.err ≠ kSTkErrOk
  · rw [if_pos he]
  · rw [if_neg he, if_pos (fun hn => hno ⟨not_not.mp he, hn⟩)]

/-- C18 (initialisation sequence). With `e` the result of the probe and `c1`, `c2`,
`k1`, `k2` the results of the reads clip (2 bytes at `0x00`), clip, control (6 bytes at
`0x0C`), control, issued in that order on the successive bus states: `begin` returns
`true` exactly when the probe and the four reads all succeed; at the first failing step
it returns `false` with the bus left in the state right after that step (no later bus
operation is issued); on success the cached clip and control word are the decodings of
the second clip read and of the second control read. -/
theorem begin_sequence {β : Type} (bus : Bus β) (d : Driver) (b s0 s1 s2 s3 s4 : β)
    (e : Int) (c1 c2 k1 k2 : ReadResult)
    (hp : bus.ping b = (e, s0))
    (h1 : bus.readRegisterRegion kSfeSiT5811RegClip 2 s0 = (c1, s1))
    (h2 : bus.readRegisterRegion kSfeSiT5811RegClip 2 s1 = (c2, s2))
    (h3 : bus.readRegisterRegion kSfeSiT5811RegControlMSW 6 s2 = (k1, s3))
    (h4 : bus.readRegisterRegion kSfeSiT5811RegControlMSW 6 s3 = (k2, s4)) :
    ((begin bus d b).1 = true ↔
        e = kSTkErrOk ∧ readOk 2 c1 ∧ readOk 2 c2 ∧ readOk 6 k1 ∧ readOk 6 k2) ∧
      (e ≠ kSTkErrOk → begin bus d b = (false, d, s0)) ∧
      (e = kSTkErrOk → ¬ readOk 2 c1 → begin bus d b = (false, d, s1)) ∧
      (e = kSTkErrOk → readOk 2 c1 → ¬ readOk 2 c2 →
        begin bus d b = (false, { d with clip := clipOfBytes c1.theBytes }, s2)) ∧
      (e = kSTkErrOk → readOk 2 c1 → readOk 2 c2 → ¬ readOk 6 k1 →
        begin bus d b = (false, { d with clip := clipOfBytes c2.theBytes }, s3)) ∧
      (e = kSTkErrOk → readOk 2 c1 → readOk 2 c2 → readOk 6 k1 → ¬ readOk 6 k2 →
        begin bus d b
          = (false, { d with clip := clipOfBytes c2.theBytes,
                             frequencyControl := controlWordOfBytes k1.theBytes }, s4)) ∧
      (e = kSTkErrOk → readOk 2 c1 → readOk 2 c2 → readOk 6 k1 → readOk 6 k2 →
        begin bus d b
          = (true, { d with clip := clipOfBytes c2.theBytes,
                            frequencyControl := controlWordOfBytes k2.theBytes }, s4)) := by
  have A : e ≠ kSTkErrOk → begin bus d b = (false, d, s0) := by
    intro he
    unfold begin
    simp only [hp]
    rw [if_pos he]
  have B : e = kSTkErrOk → ¬ readOk 2 c1 → begin bus d b = (false, d, s1) := by
    intro he hc1
    unfold begin
    simp only [hp]
    rw [if_neg (not_not.mpr he), readClipRegister_of_not_ok bus d s0 s1 c1 h1 hc1]
    simp
  have C : e = kSTkErrOk → readOk 2 c1 → ¬ readOk 2 c2 →
      begin bus d b = (false, { d with clip := clipOfBytes c1.theBytes }, s2) := by
    intro he hc1 hc2
    unfold begin
    simp only [hp]
    rw [if_neg (not_not.mpr he), readClipRegister_of_ok bus d s0 s1 c1 h1 hc1]
    simp only [if_true]
    rw [readClipRegister_of_not_ok bus _ s1 s2 c2 h2 hc2]
    simp
  have D : e = kSTkErrOk → readOk 2 c1 → readOk 2 c2 → ¬ readOk 6 k1 →
      begin bus d b = (false, { d with clip := clipOfBytes c2.theBytes }, s3) := by
    intro he hc1 hc2 hk1
    unfold begin
    simp only [hp]
    rw [if_neg (not_not.mpr he), readClipRegister_of_ok bus d s0 s1 c1 h1 hc1]
    simp only [if_true]
    rw [readClipRegister_of_ok bus _ s1 s2 c2 h2 hc2]
    simp only [if_true]
    rw [readRegisters_of_not_ok bus _ s2 s3 k1 h3 hk1]
    simp
  have E : e = kSTkErrOk → readOk 2 c1 → readOk 2 c2 → readOk 6 k1 → ¬ readOk 6 k2 →
      begin bus d b
        = (false, { d with clip := clipOfBytes c2.theBytes,
                           frequencyControl := controlWordOfBytes k1.theBytes }, s4) := by
    intro he hc1 hc2 hk1 hk2
    unfold begin
    simp only [hp]
    rw [if_neg (not_not.mpr he), readClipRegister_of_ok bus d s0 s1 c1 h1 hc1]
    simp only [if_true]
    rw [readClipRegister_of_ok bus _ s1 s2 c2 h2 hc2]
    simp only [if_true]
    rw [readRegisters_of_ok bus _ s2 s3 k1 h3 hk1]
    simp only [if_true]
    rw [readRegisters_of_not_ok bus _ s3 s4 k2 h4 hk2]
  have F : e = kSTkErrOk → readOk 2 c1 → readOk 2 c2 → readOk 6 k1 → readOk 6 k2 →
      begin bus d b
        = (true, { d with clip := clipOfBytes c2.theBytes,
                          frequencyControl := controlWordOfBytes k2.theBytes }, s4) := by
    intro he hc1 hc2 hk1 hk2
    unfold begin
    simp only [hp]
    rw [if_neg (not_not.mpr he), readClipRegister_of_ok bus d s0 s1 c1 h1 hc1]
    simp only [if_true]
    rw [readClipRegister_of_ok bus _ s1 s2 c2 h2 hc2]
    simp only [if_true]
    rw [readRegisters_of_ok bus _ s2 s3 k1 h3 hk1]
    simp only [if_true]
    rw [readRegisters_of_ok bus _ s3 s4 k2 h4 hk2]
  refine ⟨⟨fun h => ?_, fun h => ?_⟩, A, B, C, D, E, F⟩
  · by_cases he : e = kSTkErrOk
    · by_cases hc1 : readOk 2 c1
      · by_cases hc2 : readOk 2 c2
        · by_cases hk1 : readOk 6 k1
          · by_cases hk2 : readOk 6 k2
            · exact ⟨he, hc1, hc2, hk1, hk2⟩
            · rw [E he hc1 hc2 hk1 hk2] at h
              exact absurd h (by simp)
          · rw [D he hc1 hc2 hk1] at h
            exact absurd h (by simp)
        · rw [C he hc1 hc2] at h
          exact absurd h (by simp)
      · rw [B he hc1] at h
        exact absurd h (by simp)
    · rw [A he] at h
      exact absurd h (by simp)
  · rw [F h.1 h.2.1 h.2.2.1 h.2.2.2.1 h.2.2.2.2]

/-- Witness for C18: a scripted bus answering the four reads; the first clip and
control answers are discarded, the second ones are cached. -/
theorem begin_sequence_witness :
    begin scriptedBus defaultDriver
        [⟨kSTkErrOk, [0x00, 0x01], 2⟩, ⟨kSTkErrOk, [0xFF, 0xFF], 2⟩,
         ⟨kSTkErrOk, [0, 0, 0, 0, 0x02, 0], 6⟩, ⟨kSTkErrOk, [0, 0, 0, 0, 0x0A, 0], 6⟩]
      = (true, { defaultDriver with clip := clipOfBytes [0xFF, 0xFF],
                                    frequencyControl := controlWordOfBytes [0, 0, 0, 0, 0x0A, 0] },
          []) :=
  (begin_sequence scriptedBus defaultDriver
    [⟨kSTkErrOk, [0x00, 0x01], 2⟩, ⟨kSTkErrOk, [0xFF, 0xFF], 2⟩,
     ⟨kSTkErrOk, [0, 0, 0, 0, 0x02, 0], 6⟩, ⟨kSTkErrOk, [0, 0, 0, 0, 0x0A, 0], 6⟩]
    [⟨kSTkErrOk, [0x00, 0x01], 2⟩, ⟨kSTkErrOk, [0xFF, 0xFF], 2⟩,
     ⟨kSTkErrOk, [0, 0, 0, 0, 0x02, 0], 6⟩, ⟨kSTkErrOk, [0, 0, 0, 0, 0x0A, 0], 6⟩]
    [⟨kSTkErrOk, [0xFF, 0xFF], 2⟩,
     ⟨kSTkErrOk, [0, 0, 0, 0, 0x02, 0], 6⟩, ⟨kSTkErrOk, [0, 0, 0, 0, 0x0A, 0], 6⟩]
    [⟨kSTkErrOk, [0, 0, 0, 0, 0x02, 0], 6⟩, ⟨kSTkErrOk, [0, 0, 0, 0, 0x0A, 0], 6⟩]
    [⟨kSTkErrOk, [0, 0, 0, 0, 0x0A, 0], 6⟩]
    []
    kSTkErrOk ⟨kSTkErrOk, [0x00, 0x01], 2⟩ ⟨kSTkErrOk, [0xFF, 0xFF], 2⟩
    ⟨kSTkErrOk, [0, 0, 0, 0, 0x02, 0], 6⟩ ⟨kSTkErrOk, [0, 0, 0, 0, 0x0A, 0], 6⟩
    rfl rfl rfl rfl rfl).2.2.2.2.2.2 rfl ⟨rfl, rfl⟩ ⟨rfl, rfl⟩ ⟨rfl, rfl⟩ ⟨rfl, rfl⟩

/-! ## Bias-tracking controller: lemmas -/

/-- One call of the controller, in terms of the limited error and the seeded integral. -/
theorem setFrequencyByBiasMillis_eq {β : Type} (bus : Bus β) (bias Pk Ik : ℚ) (c : Controller)
    (d : Driver) (b : β) :
    setFrequencyByBiasMillis bus bias Pk Ik c d b =
      ((setFrequencyHz bus
          (limitedErrorInClocks d bias * Pk
            + (seededIntegral c d + limitedErrorInClocks d bias * Ik)) d b).1,
        { I := seededIntegral c d + limitedErrorInClocks d bias * Ik, initialized := true },
        (setFrequencyHz bus
          (limitedErrorInClocks d bias * Pk
            + (seededIntegral c d + limitedErrorInClocks d bias * Ik)) d b).2.1,
        (setFrequencyHz bus
          (limitedErrorInClocks d bias * Pk
            + (seededIntegral c d + limitedErrorInClocks d bias * Ik)) d b).2.2) := by
  unfold setFrequencyByBiasMillis limitedErrorInClocks seededIntegral
  cases c.initialized <;> simp

/-- The error in clock cycles before the limit is `(-bias / 1000) * f`. -/
theorem errorInClocks_raw (f bias : ℚ) :
    (0 - bias) / 1000 / (1 / f) = -bias / 1000 * f := by
  field_simp

/-- The limit of `setFrequencyByBiasMillis` is a symmetric clamp when the bound is
non-negative. -/
theorem limitedErrorInClocks_eq_clamp (d : Driver) (bias : ℚ)
    (hm : 0 ≤ getFrequencyHz d * d.maxFrequencyChangePPB * (1 / 1000000000)) :
    limitedErrorInClocks d bias =
      max (-(getFrequencyHz d * d.maxFrequencyChangePPB * (1 / 1000000000)))
        (min (-bias / 1000 * getFrequencyHz d)
          (getFrequencyHz d * d.maxFrequencyChangePPB * (1 / 1000000000))) := by
  unfold limitedErrorInClocks
  simp only
  rw [errorInClocks_raw]
  split_ifs with h1 h2 h3
  · rw [min_eq_right (le_of_lt h2), max_eq_right (by linarith)]
  · rw [min_eq_left (not_lt.mp h2), max_eq_right (by linarith)]
  · rw [min_eq_left (by linarith), max_eq_left (by linarith)]
    ring
  · rw [min_eq_left (by linarith), max_eq_right (by linarith)]

theorem specClampSym_of_nonneg (x m : ℚ) (hm : 0 ≤ m) :
    specClampSym x m = max (-m) (min x m) := by
  rw [specClampSym, abs_of_nonneg hm]

/-- With a zero bias and a non-negative bound the limited error is zero. -/
theorem limitedErrorInClocks_zero (d : Driver)
    (hm : 0 ≤ getFrequencyHz d * d.maxFrequencyChangePPB) :
    limitedErrorInClocks d 0 = 0 := by
  have hm9 : 0 ≤ getFrequencyHz d * d.maxFrequencyChangePPB * (1 / 1000000000) :=
    mul_nonneg hm (by norm_num)
  unfold limitedErrorInClocks
  simp only [sub_zero, zero_div, ge_iff_le, le_refl, if_true]
  rw [if_neg (not_lt.mpr hm9)]

/-- The word computed by `setFrequencyHz` is always a 39-bit value. -/
theorem freqControlInt_range (d : Driver) (freq : ℚ) :
    -2 ^ 38 ≤ freqControlInt d freq ∧ freqControlInt d freq ≤ 2 ^ 38 - 1 := by
  rw [freqControlInt_eq]
  simp only
  split_ifs <;> constructor <;> omega

/-- The driver state after `setFrequencyHz`: untouched, or with the computed word. -/
theorem setFrequencyHz_driver {β : Type} (bus : Bus β) (freq : ℚ) (d : Driver) (b : β) :
    (setFrequencyHz bus freq d b).2.1 = d ∨
      (setFrequencyHz bus freq d b).2.1
        = { d with frequencyControl := freqControlInt d freq } := by
  unfold setFrequencyHz setFrequencyControlWord
  simp only
  split
  · exact Or.inl rfl
  · exact Or.inr rfl

/-- A positive base frequency and a 39-bit control word give a positive frequency. -/
theorem getFrequencyHz_pos (d : Driver) (hb : 0 < d.baseFrequencyHz)
    (hlo : -2 ^ 38 ≤ d.frequencyControl) (hhi : d.frequencyControl ≤ 2 ^ 38 - 1) :
    0 < getFrequencyHz d := by
  have hloq : (-2 ^ 38 : ℚ) ≤ (d.frequencyControl : ℚ) := by exact_mod_cast hlo
  have hhiq : (d.frequencyControl : ℚ) ≤ 2 ^ 38 - 1 := by exact_mod_cast hhi
  unfold getFrequencyHz maxPullRange
  simp only
  split_ifs with h
  · have hq : 0 ≤ (d.frequencyControl : ℚ) / (2 ^ 38 - 1) := div_nonneg h (by norm_num)
    have : 0 ≤ d.baseFrequencyHz * ((d.frequencyControl : ℚ) / (2 ^ 38 - 1)) * (800 / 1000000) :=
      mul_nonneg (mul_nonneg hb.le hq) (by norm_num)
    linarith
  · have hq : -1 ≤ (d.frequencyControl : ℚ) / 2 ^ 38 := by
      rw [le_div_iff₀ (by norm_num)]
      linarith
    have e : d.baseFrequencyHz * ((d.frequencyControl : ℚ) / 2 ^ 38) * (800 / 1000000)
        = ((d.frequencyControl : ℚ) / 2 ^ 38) * (d.baseFrequencyHz * (800 / 1000000)) := by ring
    have hp : 0 ≤ d.baseFrequencyHz * (800 / 1000000) := by positivity
    have := mul_le_mul_of_nonneg_right hq hp
    rw [e]
    nlinarith

/-! ## Bias-tracking controller: claims -/

/-- C13 (controller rate limit, exact arithmetic). In every state with positive current
frequency `f = getFrequencyHz` and positive `maxFrequencyChangePPB = X`, for every bias
and gains, the limited `errorInClocks` satisfies `|errorInClocks| ≤ f * X * 1e-9`, equals
the unlimited value `(-bias / 1000) * f` whenever that value satisfies the bound, and is
the value from which `setFrequencyByBiasMillis` forms `P = errorInClocks * Pk` and
`dI = errorInClocks * Ik`. -/
theorem controller_rate_limit {β : Type} (bus : Bus β) (bias Pk Ik : ℚ) (c : Controller)
    (d : Driver) (b : β) (hf : 0 < getFrequencyHz d) (hX : 0 < d.maxFrequencyChangePPB) :
    |limitedErrorInClocks d bias|
        ≤ getFrequencyHz d * d.maxFrequencyChangePPB * (1 / 1000000000) ∧
      (|-bias / 1000 * getFrequencyHz d|
          ≤ getFrequencyHz d * d.maxFrequencyChangePPB * (1 / 1000000000) →
        limitedErrorInClocks d bias = -bias / 1000 * getFrequencyHz d) ∧
      (setFrequencyByBiasMillis bus bias Pk Ik c d b).2.1.I
        = seededIntegral c d + limitedErrorInClocks d bias * Ik ∧
      (setFrequencyByBiasMillis bus bias Pk Ik c d b).1
        = (setFrequencyHz bus
            (limitedErrorInClocks d bias * Pk
              + (seededIntegral c d + limitedErrorInClocks d bias * Ik)) d b).1 := by
  have hm : 0 ≤ getFrequencyHz d * d.maxFrequencyChangePPB * (1 / 1000000000) :=
    (mul_pos (mul_pos hf hX) (by norm_num)).le
  have he := limitedErrorInClocks_eq_clamp d bias hm
  refine ⟨?_, ?_, ?_, ?_⟩
  · rw [he, abs_le]
    exact ⟨le_max_left _ _, max_le (by linarith) (min_le_right _ _)⟩
  · intro h
    rw [abs_le] at h
    rw [he, min_eq_left h.2, max_eq_right h.1]
  · rw [setFrequencyByBiasMillis_eq]
  · rw [setFrequencyByBiasMillis_eq]

/-- Witness for C13: the default driver (10 MHz, 800000 ppb) with a bias of 1 ms. -/
theorem controller_rate_limit_witness :
    (0 < getFrequencyHz defaultDriver ∧ 0 < defaultDriver.maxFrequencyChangePPB) ∧
      |limitedErrorInClocks defaultDriver 1|
        ≤ getFrequencyHz defaultDriver * defaultDriver.maxFrequencyChangePPB
            * (1 / 1000000000) :=
  ⟨⟨by norm_num [getFrequencyHz, defaultDriver], by norm_num [defaultDriver]⟩,
    (controller_rate_limit loopbackBus 1 (1 / 2) (1 / 10) Controller.initial defaultDriver []
      (by norm_num [getFrequencyHz, defaultDriver]) (by norm_num [defaultDriver])).1⟩

/-- C16 (controller divergence on write failure). When the bus write inside
`setFrequencyByBiasMillis` fails, the call returns `false` and the driver state (with
its cached control word) is unchanged, but the integral accumulator is the seeded value
plus `dI` (for an initialized controller: its previous value plus `dI`) and the
controller is marked initialized. -/
theorem controller_write_failure {β : Type} (bus : Bus β) (bias Pk Ik : ℚ) (c : Controller)
    (d : Driver) (b : β)
    (hfail : (bus.writeRegisterRegion kSfeSiT5811RegControlMSW
        (controlBytes (freqControlInt d
          (limitedErrorInClocks d bias * Pk
            + (seededIntegral c d + limitedErrorInClocks d bias * Ik)))) b).1 ≠ kSTkErrOk) :
    (setFrequencyByBiasMillis bus bias Pk Ik c d b).1 = false ∧
      (setFrequencyByBiasMillis bus bias Pk Ik c d b).2.2.1 = d ∧
      (setFrequencyByBiasMillis bus bias Pk Ik c d b).2.1
        = { I := seededIntegral c d + limitedErrorInClocks d bias * Ik, initialized := true } ∧
      (c.initialized = true →
        (setFrequencyByBiasMillis bus bias Pk Ik c d b).2.1.I
          = c.I + limitedErrorInClocks d bias * Ik) := by
  have hs : setFrequencyHz bus
      (limitedErrorInClocks d bias * Pk
        + (seededIntegral c d + limitedErrorInClocks d bias * Ik)) d b
      = (false, d, (bus.writeRegisterRegion kSfeSiT5811RegControlMSW
        (controlBytes (freqControlInt d
          (limitedErrorInClocks d bias * Pk
            + (seededIntegral c d + limitedErrorInClocks d bias * Ik)))) b).2) := by
    unfold setFrequencyHz setFrequencyControlWord
    simp only
    rw [if_pos hfail]
  rw [setFrequencyByBiasMillis_eq, hs]
  refine ⟨rfl, rfl, rfl, fun hi => ?_⟩
  simp only [seededIntegral, hi, if_true]

/-- Witness for C16: the first call on a bus where every write fails: the call fails,
the driver is untouched, the accumulator is seeded and advanced. -/
theorem controller_write_failure_witness :
    (setFrequencyByBiasMillis failingBus 1 (1 / 2) (1 / 10) Controller.initial
        defaultDriver ()).1 = false ∧
      (setFrequencyByBiasMillis failingBus 1 (1 / 2) (1 / 10) Controller.initial
        defaultDriver ()).2.2.1 = defaultDriver ∧
      (setFrequencyByBiasMillis failingBus 1 (1 / 2) (1 / 10) Controller.initial
        defaultDriver ()).2.1
        = { I := seededIntegral Controller.initial defaultDriver
                  + limitedErrorInClocks defaultDriver 1 * (1 / 10),
            initialized := true } :=
  ⟨(controller_write_failure failingBus 1 (1 / 2) (1 / 10) Controller.initial defaultDriver ()
      (by decide)).1,
    (controller_write_failure failingBus 1 (1 / 2) (1 / 10) Controller.initial defaultDriver ()
      (by decide)).2.1,
    (controller_write_failure failingBus 1 (1 / 2) (1 / 10) Controller.initial defaultDriver ()
      (by decide)).2.2.1⟩

/-- C14, as stated, fails: with `maxFrequencyChangePPB = -2`, a current frequency of
10 MHz, an initialized accumulator `5` and a zero bias, the clamp of `0` to the interval
with end points `± f * X * 1e-9` is `0`, so the accumulator should stay `5`; the call
leaves `5 - 1/500`. -/
theorem pi_step_counterexample :
    getFrequencyHz { defaultDriver with maxFrequencyChangePPB := -2 } ≠ 0 ∧
      (setFrequencyByBiasMillis loopbackBus 0 (1 / 2) (1 / 10) { I := 5, initialized := true }
        { defaultDriver with maxFrequencyChangePPB := -2 } []).2.1.I = 2499 / 500 ∧
      (5 : ℚ) + specClampSym (-0 / 1000 * getFrequencyHz
            { defaultDriver with maxFrequencyChangePPB := -2 })
          (getFrequencyHz { defaultDriver with maxFrequencyChangePPB := -2 } * -2
            * (1 / 1000000000)) * (1 / 10) = 5 ∧
      (setFrequencyByBiasMillis loopbackBus 0 (1 / 2) (1 / 10) { I := 5, initialized := true }
        { defaultDriver with maxFrequencyChangePPB := -2 } []).2.1.I
        ≠ (5 : ℚ) + specClampSym (-0 / 1000 * getFrequencyHz
              { defaultDriver with maxFrequencyChangePPB := -2 })
            (getFrequencyHz { defaultDriver with maxFrequencyChangePPB := -2 } * -2
              * (1 / 1000000000)) * (1 / 10) := by
  have hf : getFrequencyHz { defaultDriver with maxFrequencyChangePPB := -2 } = 10000000 := by
    norm_num [getFrequencyHz, defaultDriver]
  have he : limitedErrorInClocks { defaultDriver with maxFrequencyChangePPB := -2 } 0
      = -1 / 50 := by
    unfold limitedErrorInClocks
    simp only [hf]
    norm_num
  have hI : (setFrequencyByBiasMillis loopbackBus 0 (1 / 2) (1 / 10)
      { I := 5, initialized := true }
      { defaultDriver with maxFrequencyChangePPB := -2 } []).2.1.I = 2499 / 500 := by
    rw [setFrequencyByBiasMillis_eq]
    simp only [seededIntegral, he, if_true]
    norm_num
  have hc : (5 : ℚ) + specClampSym (-0 / 1000 * getFrequencyHz
        { defaultDriver with maxFrequencyChangePPB := -2 })
      (getFrequencyHz { defaultDriver with maxFrequencyChangePPB := -2 } * -2
        * (1 / 1000000000)) * (1 / 10) = 5 := by
    rw [hf, specClampSym]
    norm_num
  refine ⟨by rw [hf]; norm_num, hI, hc, ?_⟩
  rw [hI, hc]
  norm_num

/-- C14 (PI step, exact arithmetic, amended). One call
`setFrequencyByBiasMillis bias Pk Ik` in a state with current frequency `f` and
`f * maxFrequencyChangePPB * 1e-9 ≥ 0` passes to `setFrequencyHz` the target
`e * Pk + (I0 + e * Ik)`, where `e` is `(-bias / 1000) * f` clamped to
`± f * maxFrequencyChangePPB * 1e-9` and `I0` is `f` if the controller was
uninitialized, otherwise the stored accumulator; afterwards the accumulator is
`I0 + e * Ik` and the controller is initialized; and any call made with an initialized
controller, in any state, adds its `dI` to the stored accumulator and leaves the
controller initialized (no re-seeding, no reset). -/
theorem pi_step {β : Type} (bus : Bus β) (bias Pk Ik : ℚ) (c : Controller) (d : Driver)
    (b : β)
    (hm : 0 ≤ getFrequencyHz d * d.maxFrequencyChangePPB * (1 / 1000000000)) :
    setFrequencyByBiasMillis bus bias Pk Ik c d b =
        ((setFrequencyHz bus
            (specClampSym (-bias / 1000 * getFrequencyHz d)
                (getFrequencyHz d * d.maxFrequencyChangePPB * (1 / 1000000000)) * Pk
              + ((if c.initialized then c.I else getFrequencyHz d)
                + specClampSym (-bias / 1000 * getFrequencyHz d)
                    (getFrequencyHz d * d.maxFrequencyChangePPB * (1 / 1000000000)) * Ik))
            d b).1,
          { I := (if c.initialized then c.I else getFrequencyHz d)
                + specClampSym (-bias / 1000 * getFrequencyHz d)
                    (getFrequencyHz d * d.maxFrequencyChangePPB * (1 / 1000000000)) * Ik,
            initialized := true },
          (setFrequencyHz bus
            (specClampSym (-bias / 1000 * getFrequencyHz d)
                (getFrequencyHz d * d.maxFrequencyChangePPB * (1 / 1000000000)) * Pk
              + ((if c.initialized then c.I else getFrequencyHz d)
                + specClampSym (-bias / 1000 * getFrequencyHz d)
                    (getFrequencyHz d * d.maxFrequencyChangePPB * (1 / 1000000000)) * Ik))
            d b).2) ∧
      (∀ (bias2 Pk2 Ik2 : ℚ) (c2 : Controller) (d2 : Driver) (b2 : β),
        c2.initialized = true →
          (setFrequencyByBiasMillis bus bias2 Pk2 Ik2 c2 d2 b2).2.1
            = { I := c2.I + limitedErrorInClocks d2 bias2 * Ik2, initialized := true }) := by
  constructor
  · rw [setFrequencyByBiasMillis_eq, specClampSym_of_nonneg _ _ hm,
      ← limitedErrorInClocks_eq_clamp d bias hm]
    rfl
  · intro bias2 Pk2 Ik2 c2 d2 b2 hi
    rw [setFrequencyByBiasMillis_eq]
    simp only [seededIntegral, hi, if_true]

/-- Witness for C14: the first call on the default driver with a bias of 1 ms leaves
the controller initialized. -/
theorem pi_step_witness :
    0 ≤ getFrequencyHz defaultDriver * defaultDriver.maxFrequencyChangePPB
          * (1 / 1000000000) ∧
      (setFrequencyByBiasMillis loopbackBus 1 (1 / 2) (1 / 10) Controller.initial
        defaultDriver []).2.1.initialized = true :=
  ⟨by norm_num [getFrequencyHz, defaultDriver],
    congrArg (fun r => r.2.1.initialized)
      (pi_step loopbackBus 1 (1 / 2) (1 / 10) Controller.initial defaultDriver []
        (by norm_num [getFrequencyHz, defaultDriver])).1⟩

/-- C15, as stated, fails: with `maxFrequencyChangePPB = -1` and a current frequency
of 10 MHz (non-zero), a first call with bias `0` has `P = -1/200`, `dI = -1/1000`, and
leaves the accumulator at `10000000 - 1/1000` instead of the seeded `10000000`. -/
theorem zero_bias_counterexample :
    getFrequencyHz { defaultDriver with maxFrequencyChangePPB := -1 } ≠ 0 ∧
      limitedErrorInClocks { defaultDriver with maxFrequencyChangePPB := -1 } 0 * (1 / 2)
        = -1 / 200 ∧
      limitedErrorInClocks { defaultDriver with maxFrequencyChangePPB := -1 } 0 * (1 / 10)
        = -1 / 1000 ∧
      seededIntegral Controller.initial { defaultDriver with maxFrequencyChangePPB := -1 }
        = 10000000 ∧
      (setFrequencyByBiasMillis loopbackBus 0 (1 / 2) (1 / 10) Controller.initial
        { defaultDriver with maxFrequencyChangePPB := -1 } []).2.1.I
        ≠ seededIntegral Controller.initial
            { defaultDriver with maxFrequencyChangePPB := -1 } := by
  have hf : getFrequencyHz { defaultDriver with maxFrequencyChangePPB := -1 } = 10000000 := by
    norm_num [getFrequencyHz, defaultDriver]
  have he : limitedErrorInClocks { defaultDriver with maxFrequencyChangePPB := -1 } 0
      = -1 / 100 := by
    unfold limitedErrorInClocks
    simp only [hf]
    norm_num
  have hs : seededIntegral Controller.initial
      { defaultDriver with maxFrequencyChangePPB := -1 } = 10000000 := by
    simp only [seededIntegral, Controller.initial, hf]
    rfl
  refine ⟨by rw [hf]; norm_num, by rw [he]; norm_num, by rw [he]; norm_num, hs, ?_⟩
  rw [setFrequencyByBiasMillis_eq]
  simp only [hs, he]
  norm_num

/-- C15 (zero-bias steady state, exact arithmetic, amended). In every state with
`f * maxFrequencyChangePPB ≥ 0` (`f` the current frequency) and for all gains, a call
`setFrequencyByBiasMillis 0 Pk Ik` has `P = 0` and `dI = 0` and leaves the seeded
integral accumulator unchanged; a second such call made in a state that again has
`f * maxFrequencyChangePPB ≥ 0` leaves the accumulator at its value after the first
call, whatever the bus answers to the writes; and both calls are in such a state
whenever the base frequency is positive, the cached control word is in
`[-2^38, 2^38 - 1]` and `maxFrequencyChangePPB ≥ 0`. -/
theorem zero_bias_steady_state {β : Type} (bus : Bus β) (Pk Ik Pk2 Ik2 : ℚ) (c : Controller)
    (d : Driver) (b : β) :
    (0 ≤ getFrequencyHz d * d.maxFrequencyChangePPB →
        limitedErrorInClocks d 0 * Pk = 0 ∧ limitedErrorInClocks d 0 * Ik = 0 ∧
          (setFrequencyByBiasMillis bus 0 Pk Ik c d b).2.1
            = { I := seededIntegral c d, initialized := true }) ∧
      (0 ≤ getFrequencyHz d * d.maxFrequencyChangePPB →
        0 ≤ getFrequencyHz (setFrequencyByBiasMillis bus 0 Pk Ik c d b).2.2.1
            * (setFrequencyByBiasMillis bus 0 Pk Ik c d b).2.2.1.maxFrequencyChangePPB →
        (setFrequencyByBiasMillis bus 0 Pk2 Ik2
            (setFrequencyByBiasMillis bus 0 Pk Ik c d b).2.1
            (setFrequencyByBiasMillis bus 0 Pk Ik c d b).2.2.1
            (setFrequencyByBiasMillis bus 0 Pk Ik c d b).2.2.2).2.1.I
          = (setFrequencyByBiasMillis bus 0 Pk Ik c d b).2.1.I) ∧
      (0 < d.baseFrequencyHz → -2 ^ 38 ≤ d.frequencyControl →
        d.frequencyControl ≤ 2 ^ 38 - 1 → 0 ≤ d.maxFrequencyChangePPB →
        0 ≤ getFrequencyHz d * d.maxFrequencyChangePPB ∧
          0 ≤ getFrequencyHz (setFrequencyByBiasMillis bus 0 Pk Ik c d b).2.2.1
              * (setFrequencyByBiasMillis bus 0 Pk Ik c d b).2.2.1.maxFrequencyChangePPB ∧
          (setFrequencyByBiasMillis bus 0 Pk2 Ik2
              (setFrequencyByBiasMillis bus 0 Pk Ik c d b).2.1
              (setFrequencyByBiasMillis bus 0 Pk Ik c d b).2.2.1
              (setFrequencyByBiasMillis bus 0 Pk Ik c d b).2.2.2).2.1.I
            = seededIntegral c d) := by
  have step : ∀ (P I : ℚ) (c1 : Controller) (d1 : Driver) (b1 : β),
      0 ≤ getFrequencyHz d1 * d1.maxFrequencyChangePPB →
        (setFrequencyByBiasMillis bus 0 P I c1 d1 b1).2.1
          = { I := seededIntegral c1 d1, initialized := true } := by
    intro P I c1 d1 b1 h
    rw [setFrequencyByBiasMillis_eq, limitedErrorInClocks_zero d1 h]
    simp
  have second : ∀ (c1 : Controller) (d1 : Driver) (b1 : β),
      c1.initialized = true → 0 ≤ getFrequencyHz d1 * d1.maxFrequencyChangePPB →
        (setFrequencyByBiasMillis bus 0 Pk2 Ik2 c1 d1 b1).2.1.I = c1.I := by
    intro c1 d1 b1 hi h
    rw [step Pk2 Ik2 c1 d1 b1 h]
    simp only [seededIntegral, hi, if_true]
  refine ⟨fun h => ?_, fun h h2 => ?_, fun hb hlo hhi hX => ?_⟩
  · rw [limitedErrorInClocks_zero d h]
    exact ⟨zero_mul _, zero_mul _, step Pk Ik c d b h⟩
  · exact second _ _ _ (by rw [step Pk Ik c d b h]) h2
  · have h1 : 0 ≤ getFrequencyHz d * d.maxFrequencyChangePPB :=
      mul_nonneg (getFrequencyHz_pos d hb hlo hhi).le hX
    have hd : (setFrequencyByBiasMillis bus 0 Pk Ik c d b).2.2.1 = d ∨
        (setFrequencyByBiasMillis bus 0 Pk Ik c d b).2.2.1
          = { d with frequencyControl := (freqControlInt d
                (limitedErrorInClocks d 0 * Pk
                  + (seededIntegral c d + limitedErrorInClocks d 0 * Ik))) } := by
      rw [setFrequencyByBiasMillis_eq]
      exact setFrequencyHz_driver bus _ d b
    have h2 : 0 ≤ getFrequencyHz (setFrequencyByBiasMillis bus 0 Pk Ik c d b).2.2.1
        * (setFrequencyByBiasMillis bus 0 Pk Ik c d b).2.2.1.maxFrequencyChangePPB := by
      rcases hd with hd | hd
      · rw [hd]
        exact h1
      · rw [hd]
        obtain ⟨rlo, rhi⟩ := freqControlInt_range d
          (limitedErrorInClocks d 0 * Pk + (seededIntegral c d + limitedErrorInClocks d 0 * Ik))
        exact mul_nonneg
          (getFrequencyHz_pos
            { d with frequencyControl := (freqControlInt d
                (limitedErrorInClocks d 0 * Pk
                  + (seededIntegral c d + limitedErrorInClocks d 0 * Ik))) }
            hb rlo rhi).le hX
    refine ⟨h1, h2, ?_⟩
    rw [second _ _ _ (by rw [step Pk Ik c d b h1]) h2, step Pk Ik c d b h1]

/-- Witness for C15: two zero-bias calls on the default driver leave the accumulator
at the seeded value. -/
theorem zero_bias_steady_state_witness :
    (0 < defaultDriver.baseFrequencyHz ∧ -2 ^ 38 ≤ defaultDriver.frequencyControl ∧
        defaultDriver.frequencyControl ≤ 2 ^ 38 - 1 ∧
        0 ≤ defaultDriver.maxFrequencyChangePPB) ∧
      (setFrequencyByBiasMillis loopbackBus 0 (1 / 2) (1 / 10)
          (setFrequencyByBiasMillis loopbackBus 0 (1 / 2) (1 / 10) Controller.initial
            defaultDriver []).2.1
          (setFrequencyByBiasMillis loopbackBus 0 (1 / 2) (1 / 10) Controller.initial
            defaultDriver []).2.2.1
          (setFrequencyByBiasMillis loopbackBus 0 (1 / 2) (1 / 10) Controller.initial
            defaultDriver []).2.2.2).2.1.I
        = seededIntegral Controller.initial defaultDriver :=
  ⟨⟨by norm_num [defaultDriver], by decide, by decide, by norm_num [defaultDriver]⟩,
    ((zero_bias_steady_state loopbackBus (1 / 2) (1 / 10) (1 / 2) (1 / 10) Controller.initial
      defaultDriver []).2.2 (by norm_num [defaultDriver]) (by decide) (by decide)
      (by norm_num [defaultDriver])).2.2⟩

/-- C17, at the failing input base 10 MHz, clip 0, control word stepped from `0` to
`1`: the step of `getFrequencyHz` divided by the base is `800e-6 / (2^38 - 1)`, below
`3e-15`, while the header note documents `5.0e-14` per LSB (a value in
`[4.95e-14, 5.05e-14)`). -/
theorem resolution_step_evaluated :
    (getFrequencyHz { defaultDriver with frequencyControl := 0 + 1 }
        - getFrequencyHz { defaultDriver with frequencyControl := 0 })
        / defaultDriver.baseFrequencyHz
      = 800 / 1000000 / (2 ^ 38 - 1) ∧
      ¬ (495 / 10 ^ 16 ≤
            (getFrequencyHz { defaultDriver with frequencyControl := 0 + 1 }
              - getFrequencyHz { defaultDriver with frequencyControl := 0 })
              / defaultDriver.baseFrequencyHz ∧
          (getFrequencyHz { defaultDriver with frequencyControl := 0 + 1 }
              - getFrequencyHz { defaultDriver with frequencyControl := 0 })
              / defaultDriver.baseFrequencyHz < 505 / 10 ^ 16) := by
  have h : (getFrequencyHz { defaultDriver with frequencyControl := 0 + 1 }
      - getFrequencyHz { defaultDriver with frequencyControl := 0 })
      / defaultDriver.baseFrequencyHz = 800 / 1000000 / (2 ^ 38 - 1) := by
    norm_num [getFrequencyHz, defaultDriver, maxPullRange]
  refine ⟨h, ?_⟩
  rw [h]
  norm_num

/-- What `getFrequencyHz` computes per LSB: for every base `> 0`, every clip and every
pair of adjacent control words `w`, `w + 1` in `[-2^38, 2^38 - 1]`, the step divided by the
base does not depend on the clip and is `800e-6 / (2^38 - 1)` when `w ≥ 0` and
`800e-6 / 2^38` when `w < 0`, between `2.85e-15` and `2.95e-15`. -/
theorem getFrequencyHz_step (d : Driver) (w : Int) (clip1 clip2 : Nat)
    (hb : 0 < d.baseFrequencyHz) (hlo : -2 ^ 38 ≤ w) (hhi : w + 1 ≤ 2 ^ 38 - 1) :
    (getFrequencyHz { d with frequencyControl := w + 1, clip := clip1 }
          - getFrequencyHz { d with frequencyControl := w, clip := clip1 })
          / d.baseFrequencyHz
        = (getFrequencyHz { d with frequencyControl := w + 1, clip := clip2 }
            - getFrequencyHz { d with frequencyControl := w, clip := clip2 })
            / d.baseFrequencyHz ∧
      (getFrequencyHz { d with frequencyControl := w + 1, clip := clip1 }
          - getFrequencyHz { d with frequencyControl := w, clip := clip1 })
          / d.baseFrequencyHz
        = (if 0 ≤ w then 800 / 1000000 / (2 ^ 38 - 1) else 800 / 1000000 / 2 ^ 38) ∧
      285 / 10 ^ 17 ≤
        (getFrequencyHz { d with frequencyControl := w + 1, clip := clip1 }
          - getFrequencyHz { d with frequencyControl := w, clip := clip1 })
          / d.baseFrequencyHz ∧
      (getFrequencyHz { d with frequencyControl := w + 1, clip := clip1 }
          - getFrequencyHz { d with frequencyControl := w, clip := clip1 })
          / d.baseFrequencyHz < 295 / 10 ^ 17 := by
  have hne : d.baseFrequencyHz ≠ 0 := ne_of_gt hb
  have key : (getFrequencyHz { d with frequencyControl := w + 1, clip := clip1 }
      - getFrequencyHz { d with frequencyControl := w, clip := clip1 })
      / d.baseFrequencyHz
      = (if 0 ≤ w then 800 / 1000000 / (2 ^ 38 - 1) else 800 / 1000000 / 2 ^ 38) := by
    unfold getFrequencyHz maxPullRange
    simp only [ge_iff_le, Int.cast_nonneg]
    by_cases h0 : 0 ≤ w
    · rw [if_pos (by omega : 0 ≤ w + 1), if_pos h0, if_pos h0]
      push_cast
      field_simp
      ring
    · rw [if_neg h0, if_neg h0]
      by_cases h1 : 0 ≤ w + 1
      · have hw : w = -1 := by omega
        subst hw
        rw [if_pos h1]
        norm_num
        field_simp
        ring
      · rw [if_neg h1]
        push_cast
        field_simp
        ring
  refine ⟨rfl, key, ?_, ?_⟩
  · rw [key]
    split_ifs <;> norm_num
  · rw [key]
    split_ifs <;> norm_num

/-! ## Hz round trip and the safety clamps: lemmas -/

/-- C22 (safety clamps unreachable, exact arithmetic). For every base `> 0`, clip in
`[0, 8191]` and target, in `setFrequencyHz`: the divisor `base * 800e-6` is non-zero;
the fraction obtained after the offset limit lies in `[-1, 1]`, so the fraction clamp
returns it unchanged and the scaled value is the plain product; the truncated integer
lies in `[-274877906944, 274877906943]`, so the final integer clamp returns it
unchanged and it is the word handed to `setFrequencyControlWord`. -/
theorem safety_clamps_unreachable {β : Type} (bus : Bus β) (d : Driver) (b : β) (target : ℚ)
    (hb : 0 < d.baseFrequencyHz) (hc : d.clip ≤ 8191) :
    d.baseFrequencyHz * maxPullRange ≠ 0 ∧
      d.baseFrequencyHz * maxPullRange = d.baseFrequencyHz * (800 / 1000000) ∧
      (-1 ≤ offsetFraction d target ∧ offsetFraction d target ≤ 1) ∧
      (if offsetFraction d target > 1 then 1 else offsetFraction d target)
        = offsetFraction d target ∧
      (if offsetFraction d target < -1 then -1 else offsetFraction d target)
        = offsetFraction d target ∧
      scaledFreqControl d target
        = (if offsetFraction d target ≥ 0 then offsetFraction d target * (2 ^ 38 - 1)
           else offsetFraction d target * 2 ^ 38) ∧
      (-274877906944 ≤ doubleToInt64 (scaledFreqControl d target) ∧
        doubleToInt64 (scaledFreqControl d target) ≤ 274877906943) ∧
      (if doubleToInt64 (scaledFreqControl d target) > 274877906943 then 274877906943
        else doubleToInt64 (scaledFreqControl d target))
        = doubleToInt64 (scaledFreqControl d target) ∧
      (if doubleToInt64 (scaledFreqControl d target) < -274877906944 then -274877906944
        else doubleToInt64 (scaledFreqControl d target))
        = doubleToInt64 (scaledFreqControl d target) ∧
      freqControlInt d target = doubleToInt64 (scaledFreqControl d target) ∧
      setFrequencyHz bus target d b
        = setFrequencyControlWord bus (doubleToInt64 (scaledFreqControl d target)) d b := by
  obtain ⟨h1, h2⟩ := offsetFraction_bounds d target hb hc
  obtain ⟨hw, hlo, hhi, _, _⟩ := freqControlInt_spec d target hb hc
  rw [hw] at hlo hhi
  refine ⟨ne_of_gt (mul_pos hb maxPullRange_pos), rfl, ⟨h1, h2⟩, if_neg (not_lt.mpr h2),
    if_neg (not_lt.mpr h1), scaledFreqControl_eq d target hb hc, ⟨hlo, hhi⟩,
    if_neg (by omega), if_neg (by omega), hw, ?_⟩
  rw [setFrequencyHz, hw]

/-- Witness for C22: a target far above the range on the default driver; the fraction
is within `[-1, 1]` without the clamp. -/
theorem safety_clamps_unreachable_witness :
    (0 < defaultDriver.baseFrequencyHz ∧ defaultDriver.clip ≤ 8191) ∧
      offsetFraction defaultDriver 20000000 ≤ 1 ∧
      freqControlInt defaultDriver 20000000
        = doubleToInt64 (scaledFreqControl defaultDriver 20000000) :=
  ⟨⟨by norm_num [defaultDriver], by decide⟩,
    (safety_clamps_unreachable loopbackBus defaultDriver [] 20000000
      (by norm_num [defaultDriver]) (by decide)).2.2.1.2,
    (safety_clamps_unreachable loopbackBus defaultDriver [] 20000000
      (by norm_num [defaultDriver]) (by decide)).2.2.2.2.2.2.2.2.2.1⟩

/-! ## Saturation in binary64: lemmas -/

theorem roundHalfEven_eq_of_near (y : ℚ) (n : Int) (h : |y - n| < 1 / 2) :
    roundHalfEven y = n := by
  rw [abs_lt] at h
  obtain ⟨hl, hr⟩ := h
  unfold roundHalfEven
  by_cases hy : (n : ℚ) ≤ y
  · have hf : ⌊y⌋ = n := by
      rw [Int.floor_eq_iff]
      constructor <;> linarith
    rw [hf, if_pos (by linarith)]
  · have hy2 : y < (n : ℚ) := not_le.mp hy
    have hf : ⌊y⌋ = n - 1 := by
      rw [Int.floor_eq_iff]
      push_cast
      constructor <;> linarith
    rw [hf]
    push_cast
    rw [if_neg (by linarith), if_pos (by linarith)]
    ring

theorem binary64Ulp_eq (x : ℚ) (e : Int) (he : -1022 ≤ e) (h1 : (2 : ℚ) ^ e ≤ |x|)
    (h2 : |x| < (2 : ℚ) ^ (e + 1)) : binary64Ulp x = (2 : ℚ) ^ (e - 52) := by
  have hpos : 0 < |x| := lt_of_lt_of_le (zpow_pos (by norm_num) e) h1
  have hle : e ≤ Int.log 2 |x| := by
    rw [← Int.zpow_le_iff_le_log (by norm_num) hpos]
    exact_mod_cast h1
  have hlt : Int.log 2 |x| < e + 1 := by
    rw [← Int.lt_zpow_iff_log_lt (by norm_num) hpos]
    exact_mod_cast h2
  have hlog : Int.log 2 |x| = e := by omega
  rw [binary64Ulp, hlog, max_eq_left he]

/-- Rounding to binary64: a value in the binade of `e` that is less than half a spacing
away from `n * 2^(e - 52)` rounds to it. -/
theorem toDouble_eq_of_near (x : ℚ) (e n : Int) (he : -1022 ≤ e) (h1 : (2 : ℚ) ^ e ≤ |x|)
    (h2 : |x| < (2 : ℚ) ^ (e + 1)) (hn : |x / (2 : ℚ) ^ (e - 52) - n| < 1 / 2) :
    toDouble x = (n : ℚ) * (2 : ℚ) ^ (e - 52) := by
  rw [toDouble, binary64Ulp_eq x e he h1 h2, roundHalfEven_eq_of_near _ n hn]

/-- The form of `toDouble_eq_of_near` used to evaluate positive values. -/
theorem toDouble_eq (x y : ℚ) (e n : Int) (he : -1022 ≤ e) (h1 : (2 : ℚ) ^ e ≤ x)
    (h2 : x < (2 : ℚ) ^ (e + 1)) (hlo : ((n : ℚ) - 1 / 2) * (2 : ℚ) ^ (e - 52) < x)
    (hhi : x < ((n : ℚ) + 1 / 2) * (2 : ℚ) ^ (e - 52)) (hy : y = (n : ℚ) * (2 : ℚ) ^ (e - 52)) :
    toDouble x = y := by
  have hx : 0 < x := lt_of_lt_of_le (zpow_pos (by norm_num) e) h1
  have hq : (0 : ℚ) < (2 : ℚ) ^ (e - 52) := zpow_pos (by norm_num) _
  rw [hy]
  apply toDouble_eq_of_near x e n he
  · rw [abs_of_pos hx]
    exact h1
  · rw [abs_of_pos hx]
    exact h2
  · rw [abs_lt]
    constructor
    · rw [lt_sub_iff_add_lt, lt_div_iff₀ hq]
      linarith
    · rw [sub_lt_iff_lt_add, div_lt_iff₀ hq]
      linarith

theorem doubleToInt64_floor (x : ℚ) (n : Int) (h0 : (0 : ℚ) ≤ x) (h1 : (n : ℚ) ≤ x)
    (h2 : x < (n : ℚ) + 1) : doubleToInt64 x = n := by
  unfold doubleToInt64
  rw [if_pos h0, Int.floor_eq_iff]
  exact ⟨h1, h2⟩

/-- The literal `800e-6` as a `double`: `7378697629483821 * 2^(-63)`. -/
theorem maxPullRangeD_eq : maxPullRangeD = 7378697629483821 / 9223372036854775808 :=
  toDouble_eq _ _ (-11) 7378697629483821 (by norm_num) (by norm_num) (by norm_num)
    (by norm_num) (by norm_num) (by norm_num)

theorem toDouble_one_mul_maxPull :
    toDouble (1 * (7378697629483821 / 9223372036854775808))
      = 7378697629483821 / 9223372036854775808 :=
  toDouble_eq _ _ (-11) 7378697629483821 (by norm_num) (by norm_num) (by norm_num)
    (by norm_num) (by norm_num) (by norm_num)

/-- The sum `1.0 + 800e-6` rounds down: it is `4507202507072392 * 2^(-52)`. -/
theorem toDouble_boundary_target :
    toDouble (1 + 7378697629483821 / 9223372036854775808)
      = 563400313384049 / 562949953421312 :=
  toDouble_eq _ _ 0 4507202507072392 (by norm_num) (by norm_num) (by norm_num)
    (by norm_num) (by norm_num) (by norm_num)

/-- The difference `(1.0 + 800e-6) - 1.0` is exact and lies below `800e-6`. -/
theorem toDouble_boundary_offset :
    toDouble (563400313384049 / 562949953421312 - 1)
      = 450359962737 / 562949953421312 :=
  toDouble_eq _ _ (-11) 7378697629483008 (by norm_num) (by norm_num) (by norm_num)
    (by norm_num) (by norm_num) (by norm_num)

theorem toDouble_boundary_fraction :
    toDouble (450359962737 / 562949953421312 / (7378697629483821 / 9223372036854775808))
      = 281474976710625 / 281474976710656 :=
  toDouble_eq _ _ (-1) 9007199254740000 (by norm_num) (by norm_num) (by norm_num)
    (by norm_num) (by norm_num) (by norm_num)

theorem toDouble_full_scale : toDouble (2 ^ 38 - 1) = 274877906943 :=
  toDouble_eq _ _ 37 9007199254708224 (by norm_num) (by norm_num) (by norm_num)
    (by norm_num) (by norm_num) (by norm_num)

theorem toDouble_boundary_scaled :
    toDouble (281474976710625 / 281474976710656 * 274877906943)
      = 281474976709601 / 1024 :=
  toDouble_eq _ _ 37 9007199254707232 (by norm_num) (by norm_num) (by norm_num)
    (by norm_num) (by norm_num) (by norm_num)

theorem toDouble_one : toDouble (2 - 1) = 1 :=
  toDouble_eq _ _ 0 4503599627370496 (by norm_num) (by norm_num) (by norm_num)
    (by norm_num) (by norm_num) (by norm_num)

theorem toDouble_unit_fraction :
    toDouble (7378697629483821 / 9223372036854775808 / (7378697629483821 / 9223372036854775808))
      = 1 :=
  toDouble_eq _ _ 0 4503599627370496 (by norm_num) (by norm_num) (by norm_num)
    (by norm_num) (by norm_num) (by norm_num)

theorem toDouble_top_scaled : toDouble (1 * 274877906943) = 274877906943 :=
  toDouble_eq _ _ 37 9007199254708224 (by norm_num) (by norm_num) (by norm_num)
    (by norm_num) (by norm_num) (by norm_num)

/-- In binary64, base 1.0 and clip 0: the target 2.0 is limited to the full pull and
gives the largest word. -/
theorem freqControlIntD_beyond :
    freqControlIntD { defaultDriver with baseFrequencyHz := 1 } 2 = 274877906943 := by
  have hgt : (1 : ℚ) > 7378697629483821 / 9223372036854775808 := by norm_num
  have hw : doubleToInt64 (274877906943 : ℚ) = 274877906943 :=
    doubleToInt64_floor _ _ (by norm_num) (by norm_num) (by norm_num)
  unfold freqControlIntD getMaxPullAvailableD
  simp only [defaultDriver, if_true, maxPullRangeD_eq, toDouble_one_mul_maxPull, toDouble_one,
    ge_iff_le, zero_le_one, hgt, toDouble_unit_fraction, gt_iff_lt, lt_self_iff_false,
    if_false, toDouble_full_scale, toDouble_top_scaled, hw]
  decide

/-- In binary64, base 1.0 and clip 0: the boundary target `1.0 + 1.0 * 800e-6` has an
offset just below the pull, is not limited, and gives the word below the largest. -/
theorem freqControlIntD_boundary :
    freqControlIntD { defaultDriver with baseFrequencyHz := 1 }
        (toDouble (1 + toDouble (1 * getMaxPullAvailableD
          { defaultDriver with baseFrequencyHz := 1 })))
      = 274877906942 := by
  have hoff0 : (0 : ℚ) ≤ 450359962737 / 562949953421312 := by norm_num
  have hoff1 : ¬ ((7378697629483821 : ℚ) / 9223372036854775808
      < 450359962737 / 562949953421312) := by norm_num
  have hfr0 : (0 : ℚ) ≤ 281474976710625 / 281474976710656 := by norm_num
  have hfr1 : ¬ ((1 : ℚ) < 281474976710625 / 281474976710656) := by norm_num
  have hw : doubleToInt64 (281474976709601 / 1024 : ℚ) = 274877906942 :=
    doubleToInt64_floor _ _ (by norm_num) (by norm_num) (by norm_num)
  unfold freqControlIntD getMaxPullAvailableD
  simp only [defaultDriver, if_true, maxPullRangeD_eq, toDouble_one_mul_maxPull,
    toDouble_boundary_target, toDouble_boundary_offset, ge_iff_le, gt_iff_lt, hoff0, hoff1,
    if_false, toDouble_boundary_fraction, hfr0, hfr1, toDouble_full_scale,
    toDouble_boundary_scaled, hw]
  decide

/-! ## Saturation in binary64: the claim as stated -/

/-- C6, as stated, fails in the `double` arithmetic of the source: with base 1.0 and
clip 0 (available pull `800e-6`), the target 2.0 exceeds the clipped pull and writes
`274877906943` (`7F FF FF FF FE 00`), while the target `1.0 + 1.0 * 800e-6` writes
`274877906942` (`7F FF FF FF FC 00`), because `(1.0 + 800e-6) - 1.0` rounds below
`800e-6`. -/
theorem saturation_double_counterexample :
    0 < ({ defaultDriver with baseFrequencyHz := 1 } : Driver).baseFrequencyHz ∧
      ({ defaultDriver with baseFrequencyHz := 1 } : Driver).clip ≤ 8191 ∧
      toDouble (2 - ({ defaultDriver with baseFrequencyHz := 1 } : Driver).baseFrequencyHz)
        > toDouble (({ defaultDriver with baseFrequencyHz := 1 } : Driver).baseFrequencyHz
            * getMaxPullAvailableD { defaultDriver with baseFrequencyHz := 1 }) ∧
      freqControlIntD { defaultDriver with baseFrequencyHz := 1 } 2 = 274877906943 ∧
      freqControlIntD { defaultDriver with baseFrequencyHz := 1 }
          (toDouble (1 + toDouble (1 * getMaxPullAvailableD
            { defaultDriver with baseFrequencyHz := 1 })))
        = 274877906942 ∧
      (setFrequencyHzD loopbackBus 2 { defaultDriver with baseFrequencyHz := 1 } []).2.2
        = [0x7F, 0xFF, 0xFF, 0xFF, 0xFE, 0x00] ∧
      (setFrequencyHzD loopbackBus
          (toDouble (1 + toDouble (1 * getMaxPullAvailableD
            { defaultDriver with baseFrequencyHz := 1 })))
          { defaultDriver with baseFrequencyHz := 1 } []).2.2
        = [0x7F, 0xFF, 0xFF, 0xFF, 0xFC, 0x00] ∧
      setFrequencyHzD loopbackBus 2 { defaultDriver with baseFrequencyHz := 1 } []
        ≠ setFrequencyHzD loopbackBus
            (toDouble (1 + toDouble (1 * getMaxPullAvailableD
              { defaultDriver with baseFrequencyHz := 1 })))
            { defaultDriver with baseFrequencyHz := 1 } [] := by
  have hA : getMaxPullAvailableD { defaultDriver with baseFrequencyHz := 1 }
      = 7378697629483821 / 9223372036854775808 := by
    unfold getMaxPullAvailableD
    simp only [defaultDriver, if_true, maxPullRangeD_eq]
  have h1 := freqControlIntD_beyond
  have h2 := freqControlIntD_boundary
  have b1 : (setFrequencyHzD loopbackBus 2 { defaultDriver with baseFrequencyHz := 1 } []).2.2
      = [0x7F, 0xFF, 0xFF, 0xFF, 0xFE, 0x00] := by
    have e : (setFrequencyHzD loopbackBus 2 { defaultDriver with baseFrequencyHz := 1 } []).2.2
        = controlBytes (freqControlIntD { defaultDriver with baseFrequencyHz := 1 } 2) := rfl
    rw [e, h1]
    decide
  have b2 : (setFrequencyHzD loopbackBus
        (toDouble (1 + toDouble (1 * getMaxPullAvailableD
          { defaultDriver with baseFrequencyHz := 1 })))
        { defaultDriver with baseFrequencyHz := 1 } []).2.2
      = [0x7F, 0xFF, 0xFF, 0xFF, 0xFC, 0x00] := by
    have e : (setFrequencyHzD loopbackBus
          (toDouble (1 + toDouble (1 * getMaxPullAvailableD
            { defaultDriver with baseFrequencyHz := 1 })))
          { defaultDriver with baseFrequencyHz := 1 } []).2.2
        = controlBytes (freqControlIntD { defaultDriver with baseFrequencyHz := 1 }
            (toDouble (1 + toDouble (1 * getMaxPullAvailableD
              { defaultDriver with baseFrequencyHz := 1 })))) := rfl
    rw [e, h2]
    decide
  refine ⟨by norm_num, by decide, ?_, h1, h2, b1, b2, ?_⟩
  · rw [hA]
    simp only [toDouble_one, toDouble_one_mul_maxPull]
    norm_num
  · intro h
    have hb := congrArg (fun r => r.2.2) h
    simp only [b1, b2] at hb
    exact absurd hb (by decide)

end SfeSiT5811Driver
